import Mathlib

/-!
Verification development for the dataintegrity repository
(data-quality scoring and PII risk classification engine).

Conventions of the shallow embedding:
* Python floats are modelled as rationals (`ℚ`); Python's `round(x, n)`
  is modelled as exact rounding to `n` decimal places on `ℚ`.
* Python dicts that are iterated in insertion order are modelled as
  association lists (`List (key × value)`); `dict.get` is first-match lookup.
* Compiled regular expressions (`re.compile(...).search`) are modelled as
  boolean predicates `String → Bool` supplied as parameters, since the
  `re` module is an external library; everything around them is
  translated from the source.
-/

/-- First-match lookup in an association list, modelling Python `dict.get(k)`
(Python dicts have unique keys; lookup returns the value or `None`). -/
def lookup? {α : Type} (m : List (String × α)) (k : String) : Option α :=
  (m.find? (fun p => p.1 == k)).map Prod.snd

/-- Python `round(q, n)` modelled on `ℚ`: round `q` to `n` decimal places.
(Python rounds half to even on binary floats; on the rational model we use
the standard `round`, which differs only on exact half-way ties.) -/
def roundTo (n : ℕ) (q : ℚ) : ℚ :=
  ((round (q * 10 ^ n) : ℤ) : ℚ) / 10 ^ n

/-! ### integrity/risk_model.py -/

/-- Severity weight table `SEVERITY_WEIGHTS` from `integrity/risk_model.py`. -/
def SEVERITY_WEIGHTS : List (String × ℚ) :=
  [("LOW", 1), ("MEDIUM", 3/2), ("HIGH", 2)]

/-- Pass threshold `DEFAULT_PASS_THRESHOLD` from `integrity/risk_model.py`. -/
def DEFAULT_PASS_THRESHOLD : ℚ := 1/2

/-- Python `str.upper()` modelled character-wise (the severity and keyword
strings involved are ASCII, where `Char.toUpper` agrees with Python). -/
def pyUpper (s : String) : String := ⟨s.data.map Char.toUpper⟩

/-- Python `str.lower()` modelled character-wise (ASCII). -/
def pyLower (s : String) : String := ⟨s.data.map Char.toLower⟩

/-- The lookup key used by `apply_risk_weight`:
`severity.upper() if severity else "LOW"`. -/
def severityLookupKey (severity : String) : String :=
  if severity = "" then "LOW" else pyUpper severity

/-- Embedding of `apply_risk_weight` (integrity/risk_model.py, lines 47-84):
passing scores are clamped to `[0,1]` and returned; failing scores are
divided by the severity weight (unknown severities fall back to weight 1)
and clamped to `[0,1]`. -/
def apply_risk_weight (raw_score : ℚ) (severity : String) (passed : Bool) : ℚ :=
  if passed then max 0 (min 1 raw_score)
  else
    let weight := (lookup? SEVERITY_WEIGHTS (severityLookupKey severity)).getD 1
    max 0 (min 1 (raw_score / weight))

/-! ### integrity/scorer.py -/

/-- The default `score_weights` mapping of `core/config.py` (`DEFAULT_CONFIG`). -/
def defaultScoreWeights : List (String × ℚ) :=
  [("completeness", 3/10), ("uniqueness", 1/5), ("validity", 1/5),
   ("consistency", 1/5), ("timeliness", 1/10)]

/-- Per-dimension severity and adjusted score as computed inside the loop of
`DataScorer.compute` (integrity/scorer.py, lines 97-110): the raw score is
the looked-up dimension score with default `0.0`; when `rule_severities` is
supplied the severity defaults to `"LOW"` and the adjusted score is
`apply_risk_weight`; otherwise severity is `"N/A"` and the score is unchanged. -/
def adjustedFor (dimension_scores : List (String × ℚ))
    (rule_severities : Option (List (String × String))) (pass_threshold : ℚ)
    (dimension : String) : String × ℚ :=
  let raw_score := (lookup? dimension_scores dimension).getD 0
  match rule_severities with
  | some sevs =>
      let severity := (lookup? sevs dimension).getD "LOW"
      (severity, apply_risk_weight raw_score severity (decide (raw_score ≥ pass_threshold)))
  | none => ("N/A", raw_score)

/-- One row of the `breakdown` mapping returned by `DataScorer.compute`. -/
structure DimBreakdown where
  raw_score : ℚ
  adjusted_score : ℚ
  severity : String
  weight : ℚ
  contribution : ℚ
  deriving DecidableEq

/-- One iteration of the dimension loop of `DataScorer.compute`
(integrity/scorer.py, lines 97-118): accumulates the weighted contribution
and appends the per-dimension breakdown entry. -/
def computeStep (dimension_scores : List (String × ℚ))
    (rule_severities : Option (List (String × String))) (pass_threshold : ℚ)
    (acc : ℚ × List (String × DimBreakdown)) (p : String × ℚ) :
    ℚ × List (String × DimBreakdown) :=
  let dimension := p.1
  let weight := p.2
  let raw_score := (lookup? dimension_scores dimension).getD 0
  let sa := adjustedFor dimension_scores rule_severities pass_threshold dimension
  let contribution := sa.2 * weight
  (acc.1 + contribution,
   acc.2 ++ [(dimension,
     ⟨roundTo 4 raw_score, roundTo 4 sa.2, sa.1, weight, roundTo 4 contribution⟩)])

/-- Embedding of `DataScorer.compute` (integrity/scorer.py, lines 51-126):
folds over the configured weight table, accumulating the weighted sum of
adjusted scores and a per-dimension breakdown; returns
`(data_score, breakdown)` with `data_score = round(weighted_sum * 100, 2)`. -/
def DataScorer.compute (weights : List (String × ℚ))
    (dimension_scores : List (String × ℚ))
    (rule_severities : Option (List (String × String)))
    (pass_threshold : ℚ) : ℚ × List (String × DimBreakdown) :=
  let r := weights.foldl (computeStep dimension_scores rule_severities pass_threshold) (0, [])
  (roundTo 2 (r.1 * 100), r.2)

/-- The composite `data_score` returned by `DataScorer.compute`. -/
def DataScorer.data_score (weights : List (String × ℚ))
    (dimension_scores : List (String × ℚ))
    (rule_severities : Option (List (String × String)))
    (pass_threshold : ℚ) : ℚ :=
  (DataScorer.compute weights dimension_scores rule_severities pass_threshold).1

/-! ### Specification-side definitions for the scorer claims

`specSeverityWeightClaim`, `specAdjustedClaim` and `specContribClaim` follow
the words of claim C1 exactly (exact-match severity table, no rounding);
the `C1` variants follow the amended claim (severity matched after
uppercasing, as the source does). -/

/-- Severity weight table as worded in the claim: LOW = 1.0, MEDIUM = 1.5,
HIGH = 2.0, unknown severities default to 1.0 (exact string match). -/
def specSeverityWeightClaim (s : String) : ℚ :=
  if s = "LOW" then 1 else if s = "MEDIUM" then 3/2 else if s = "HIGH" then 2 else 1

/-- Adjusted score as worded in the claim: `passed = raw >= 0.5`; if passed,
`clamp(raw, 0, 1)`; else `clamp(raw / severity_weight(sev), 0, 1)`. -/
def specAdjustedClaim (raw : ℚ) (sev : String) : ℚ :=
  if 1/2 ≤ raw then max 0 (min 1 raw)
  else max 0 (min 1 (raw / specSeverityWeightClaim sev))

/-- Contribution of one dimension, as worded in the claim: a dimension
missing from `dimension_scores` has raw score 0; a dimension missing from
`severities` defaults to LOW. -/
def specContribClaim (dimension_scores : List (String × ℚ))
    (sevs : List (String × String)) (d : String) : ℚ :=
  specAdjustedClaim ((lookup? dimension_scores d).getD 0) ((lookup? sevs d).getD "LOW")

/-- Severity weight table of the amended claim: the severity string is
uppercased before the exact-match lookup (matching the source's
`severity.upper()`). -/
def specSeverityWeightC1 (s : String) : ℚ :=
  if pyUpper s = "LOW" then 1 else if pyUpper s = "MEDIUM" then 3/2
  else if pyUpper s = "HIGH" then 2 else 1

/-- Adjusted score of the amended claim. -/
def specAdjustedC1 (raw : ℚ) (sev : String) : ℚ :=
  if 1/2 ≤ raw then max 0 (min 1 raw)
  else max 0 (min 1 (raw / specSeverityWeightC1 sev))

/-- Contribution of one dimension under the amended claim. -/
def specContribC1 (dimension_scores : List (String × ℚ))
    (sevs : List (String × String)) (d : String) : ℚ :=
  specAdjustedC1 ((lookup? dimension_scores d).getD 0) ((lookup? sevs d).getD "LOW")

/-! ### Helper lemmas for the scorer -/

/-- The severity-weight lookup of `apply_risk_weight` agrees with the
uppercase-then-match table of the amended claim. -/
theorem severity_weight_eq (s : String) :
    (lookup? SEVERITY_WEIGHTS (severityLookupKey s)).getD 1 = specSeverityWeightC1 s := by
  unfold severityLookupKey specSeverityWeightC1
  by_cases h0 : s = ""
  · subst h0
    rfl
  · simp only [if_neg h0]
    by_cases h1 : pyUpper s = "LOW"
    · rw [h1]; rfl
    · by_cases h2 : pyUpper s = "MEDIUM"
      · rw [h2]; rfl
      · by_cases h3 : pyUpper s = "HIGH"
        · rw [h3]; rfl
        · simp only [if_neg h1, if_neg h2, if_neg h3]
          have e1 : (("LOW" : String) == pyUpper s) = false :=
            beq_eq_false_iff_ne.mpr (fun h => h1 h.symm)
          have e2 : (("MEDIUM" : String) == pyUpper s) = false :=
            beq_eq_false_iff_ne.mpr (fun h => h2 h.symm)
          have e3 : (("HIGH" : String) == pyUpper s) = false :=
            beq_eq_false_iff_ne.mpr (fun h => h3 h.symm)
          simp [lookup?, SEVERITY_WEIGHTS, List.find?, e1, e2, e3]

/-- A passing score is returned clamped, independent of severity. -/
theorem apply_risk_weight_true (raw : ℚ) (s : String) :
    apply_risk_weight raw s true = max 0 (min 1 raw) := rfl

/-- A failing score is divided by the (uppercase-matched) severity weight
and clamped. -/
theorem apply_risk_weight_false (raw : ℚ) (s : String) :
    apply_risk_weight raw s false = max 0 (min 1 (raw / specSeverityWeightC1 s)) := by
  unfold apply_risk_weight
  rw [severity_weight_eq]
  rfl

/-- The per-dimension adjusted score computed by the source equals the
amended claim's formula when severities are supplied and the threshold is
the default 0.5. -/
theorem adjustedFor_eq_spec (scores : List (String × ℚ))
    (sevs : List (String × String)) (d : String) :
    (adjustedFor scores (some sevs) (1/2) d).2
      = specContribC1 scores sevs d := by
  unfold adjustedFor specContribC1 specAdjustedC1
  by_cases h : (1:ℚ)/2 ≤ (lookup? scores d).getD 0
  · rw [if_pos h]
    have hd : decide ((lookup? scores d).getD 0 ≥ 1/2) = true := decide_eq_true h
    show apply_risk_weight _ _ (decide ((lookup? scores d).getD 0 ≥ 1/2)) = _
    rw [hd, apply_risk_weight_true]
  · rw [if_neg h]
    have hd : decide ((lookup? scores d).getD 0 ≥ 1/2) = false :=
      decide_eq_false (fun hh => h hh)
    show apply_risk_weight _ _ (decide ((lookup? scores d).getD 0 ≥ 1/2)) = _
    rw [hd, apply_risk_weight_false]

/-- The first component of the fold inside `DataScorer.compute` accumulates
the sum of the per-dimension contributions. -/
theorem foldl_computeStep_fst (scores : List (String × ℚ))
    (rs : Option (List (String × String))) (th : ℚ) :
    ∀ (l : List (String × ℚ)) (a : ℚ) (b : List (String × DimBreakdown)),
      (l.foldl (computeStep scores rs th) (a, b)).1
        = a + (l.map (fun p => (adjustedFor scores rs th p.1).2 * p.2)).sum
  | [], a, b => by simp
  | p :: t, a, b => by
      rw [List.foldl_cons, List.map_cons, List.sum_cons]
      rw [foldl_computeStep_fst scores rs th t]
      show a + (adjustedFor scores rs th p.1).2 * p.2 + _ = _
      ring

/-- The composite score is the rounded weighted sum of adjusted scores. -/
theorem data_score_eq (weights scores : List (String × ℚ))
    (rs : Option (List (String × String))) (th : ℚ) :
    DataScorer.data_score weights scores rs th
      = roundTo 2 ((weights.map (fun p => (adjustedFor scores rs th p.1).2 * p.2)).sum * 100) := by
  show roundTo 2 ((weights.foldl (computeStep scores rs th) (0, [])).1 * 100) = _
  rw [foldl_computeStep_fst, zero_add]

/-- Rounding to `n` decimal places is monotone. -/
theorem roundTo_mono {n : ℕ} {a b : ℚ} (h : a ≤ b) : roundTo n a ≤ roundTo n b := by
  unfold roundTo
  have hp : (0:ℚ) < 10 ^ n := pow_pos (by norm_num) n
  have h2 : round (a * 10 ^ n) ≤ round (b * 10 ^ n) := by
    rw [round_eq, round_eq]
    exact Int.floor_mono (by nlinarith)
  exact div_le_div_of_nonneg_right (by exact_mod_cast h2) hp.le

/-- Looking up a key in an association list extended on the right by a
fresh key is unchanged for every other key. -/
theorem lookup?_append_single {α : Type} (m : List (String × α)) (k d : String)
    (v : α) (h : d ≠ k) :
    lookup? (m ++ [(k, v)]) d = lookup? m d := by
  induction m with
  | nil =>
      have : ((k, v).1 == d) = false := beq_eq_false_iff_ne.mpr (fun hk => h hk.symm)
      simp [lookup?, List.find?, this]
  | cons p t ih =>
      by_cases hp : (p.1 == d) = true
      · simp [lookup?, List.find?, hp]
      · have hp' : (p.1 == d) = false := by
          cases hb : (p.1 == d) with
          | true => exact absurd hb hp
          | false => rfl
        simp only [lookup?, List.cons_append, List.find?, hp'] at ih ⊢
        exact ih

/-- A value produced by `lookup?` belongs to the association list. -/
theorem lookup?_mem {α : Type} {m : List (String × α)} {d : String} {v : α}
    (h : lookup? m d = some v) : ∃ p ∈ m, p.2 = v := by
  unfold lookup? at h
  cases hf : m.find? (fun p => p.1 == d) with
  | none => rw [hf] at h; simp at h
  | some q =>
      rw [hf] at h
      simp only [Option.map_some'] at h
      exact ⟨q, List.mem_of_find?_eq_some hf, by injection h⟩

/-- Rounding zero gives zero. -/
theorem roundTo_zero (n : ℕ) : roundTo n 0 = 0 := by
  unfold roundTo
  rw [zero_mul, round_zero]
  norm_num

/-- Rounding 100 to two decimals gives 100. -/
theorem roundTo_two_hundred : roundTo 2 (100 : ℚ) = 100 := by
  unfold roundTo
  have h : ((100 : ℚ) * 10 ^ 2) = ((10000 : ℕ) : ℚ) := by norm_num
  rw [h, round_natCast]
  norm_num

/-! ### Claim theorems for the scorer (C1, C3, C7) -/

/-- C1 (amended): for every weight table, dimension_scores mapping and
severities mapping, `DataScorer.compute` with `rule_severities` supplied
returns a data_score equal to `round(100 * Σ contribution_d, 2)` — the
claim's per-dimension formula (passed = raw ≥ 0.5; passed dimensions are
clamped; failing dimensions are divided by the severity weight and clamped)
with the severity matched case-insensitively (uppercased before lookup) —
rounded to two decimal places; a dimension missing from dimension_scores
has adjusted score 0 and so contributes 0; and a dimension present in
dimension_scores but absent from the weight table is ignored. -/
theorem c1_amended (weights scores : List (String × ℚ)) (sevs : List (String × String)) :
    DataScorer.data_score weights scores (some sevs) (1/2)
        = roundTo 2 ((weights.map (fun p => specContribC1 scores sevs p.1 * p.2)).sum * 100)
    ∧ (∀ d, lookup? scores d = none → (adjustedFor scores (some sevs) (1/2) d).2 = 0)
    ∧ (∀ k v, k ∉ weights.map Prod.fst →
        DataScorer.data_score weights (scores ++ [(k, v)]) (some sevs) (1/2)
          = DataScorer.data_score weights scores (some sevs) (1/2)) := by
  refine ⟨?_, ?_, ?_⟩
  · rw [data_score_eq]
    congr 1
    congr 1
    congr 1
    exact List.map_congr_left (fun p _ => by rw [adjustedFor_eq_spec])
  · intro d hd
    rw [adjustedFor_eq_spec]
    unfold specContribC1 specAdjustedC1
    rw [hd]
    have : ¬ ((1:ℚ)/2 ≤ (Option.none).getD 0) := by norm_num
    rw [if_neg this]
    simp only [Option.getD_none]
    rw [zero_div]
    norm_num
  · intro k v hk
    rw [data_score_eq, data_score_eq]
    congr 1
    congr 1
    congr 1
    apply List.map_congr_left
    intro p hp
    have hne : p.1 ≠ k := fun h => hk (h ▸ List.mem_map_of_mem Prod.fst hp)
    unfold adjustedFor
    rw [lookup?_append_single _ _ _ _ hne]

/-- Witness for `c1_amended`: the three parts evaluated on concrete inputs
(a failing HIGH-severity completeness score; a dimension absent from
dimension_scores; an extra dimension absent from the weight table). -/
theorem c1_amended_witness :
    (DataScorer.data_score defaultScoreWeights [("completeness", 1/4)]
        (some [("completeness", "HIGH")]) (1/2)
      = roundTo 2 ((defaultScoreWeights.map
          (fun p => specContribC1 [("completeness", 1/4)] [("completeness", "HIGH")] p.1 * p.2)).sum * 100))
    ∧ (adjustedFor [("completeness", 1/4)] (some [("completeness", "HIGH")]) (1/2) "uniqueness").2 = 0
    ∧ DataScorer.data_score defaultScoreWeights ([("completeness", 1/4)] ++ [("extra", 1)])
        (some [("completeness", "HIGH")]) (1/2)
      = DataScorer.data_score defaultScoreWeights [("completeness", 1/4)]
        (some [("completeness", "HIGH")]) (1/2) := by
  obtain ⟨h1, h2, h3⟩ :=
    c1_amended defaultScoreWeights [("completeness", 1/4)] [("completeness", "HIGH")]
  exact ⟨h1, h2 "uniqueness" rfl, h3 "extra" 1 (by decide)⟩

/-- Counterexample to C1 as stated: the claim says the returned data_score
equals `100 * Σ contribution_d` with an exact-match severity table.  First,
with a raw completeness score of 0.3333 the source returns 10 (it rounds
9.999 to two decimals), not the claim's 9.999.  Second, with severity
string "medium" (lower case) the source uppercases it and applies weight
1.5, returning 6, while the claim's table treats "medium" as unknown
(weight 1.0) and predicts 9. -/
theorem c1_counterexample :
    (DataScorer.data_score defaultScoreWeights [("completeness", 3333/10000)] (some []) (1/2) = 10
      ∧ 100 * ((defaultScoreWeights.map
          (fun p => specContribClaim [("completeness", 3333/10000)] [] p.1 * p.2)).sum) = 9999/1000
      ∧ (10 : ℚ) ≠ 9999/1000)
    ∧ (DataScorer.data_score defaultScoreWeights [("completeness", 3/10)]
          (some [("completeness", "medium")]) (1/2) = 6
      ∧ 100 * ((defaultScoreWeights.map
          (fun p => specContribClaim [("completeness", 3/10)] [("completeness", "medium")] p.1 * p.2)).sum) = 9
      ∧ (6 : ℚ) ≠ 9) := by
  refine ⟨⟨?_, ?_, by norm_num⟩, ?_, ?_, by norm_num⟩
  · simp only [DataScorer.data_score, DataScorer.compute, computeStep, adjustedFor,
      apply_risk_weight, lookup?, List.find?, defaultScoreWeights, severityLookupKey,
      List.foldl]
    simp [show pyUpper "LOW" = "LOW" from rfl]
    norm_num [roundTo, round_eq]
  · simp only [specContribClaim, specAdjustedClaim, specSeverityWeightClaim, lookup?,
      List.find?, defaultScoreWeights, List.map, List.sum_cons, List.sum_nil]
    simp
    norm_num
  · simp only [DataScorer.data_score, DataScorer.compute, computeStep, adjustedFor,
      apply_risk_weight, lookup?, List.find?, defaultScoreWeights, severityLookupKey,
      List.foldl]
    simp [show pyUpper "LOW" = "LOW" from rfl, show pyUpper "medium" = "MEDIUM" from rfl]
    norm_num [roundTo, round_eq]
  · simp only [specContribClaim, specAdjustedClaim, specSeverityWeightClaim, lookup?,
      List.find?, defaultScoreWeights, List.map, List.sum_cons, List.sum_nil]
    simp
    norm_num

/-- C3: for every dimension_scores input with values in [0,1] (the
documented domain of dimension scores), including all-zero and all-one
inputs, and whether or not rule_severities is supplied, the composite
data_score returned by `DataScorer.compute` (over a weight table with
nonnegative weights summing to 1, as validated by the configuration)
lies in [0, 100]. -/
theorem c3_data_score_bounds (weights scores : List (String × ℚ))
    (rs : Option (List (String × String)))
    (hw : ∀ p ∈ weights, 0 ≤ p.2)
    (hsum : (weights.map Prod.snd).sum = 1)
    (hs : ∀ p ∈ scores, 0 ≤ p.2 ∧ p.2 ≤ 1) :
    0 ≤ DataScorer.data_score weights scores rs (1/2)
      ∧ DataScorer.data_score weights scores rs (1/2) ≤ 100 := by
  have hadj : ∀ d, 0 ≤ (adjustedFor scores rs (1/2) d).2
      ∧ (adjustedFor scores rs (1/2) d).2 ≤ 1 := by
    intro d
    unfold adjustedFor
    match rs with
    | some sevs =>
        refine ⟨?_, ?_⟩
        · show (0:ℚ) ≤ apply_risk_weight _ _ _
          unfold apply_risk_weight
          split
          · exact le_max_left _ _
          · exact le_max_left _ _
        · show apply_risk_weight _ _ _ ≤ 1
          unfold apply_risk_weight
          split
          · exact max_le (by norm_num) (min_le_left _ _)
          · exact max_le (by norm_num) (min_le_left _ _)
    | none =>
        show 0 ≤ (lookup? scores d).getD 0 ∧ (lookup? scores d).getD 0 ≤ 1
        cases hfind : lookup? scores d with
        | none => norm_num
        | some v =>
            obtain ⟨p, hp, hpv⟩ := lookup?_mem hfind
            have := hs p hp
            simp only [Option.getD_some]
            exact ⟨hpv ▸ this.1, hpv ▸ this.2⟩
  rw [data_score_eq]
  have hsum_lb : 0 ≤ (weights.map (fun p => (adjustedFor scores rs (1/2) p.1).2 * p.2)).sum := by
    apply List.sum_nonneg
    intro a ha
    obtain ⟨p, hp, rfl⟩ := List.mem_map.mp ha
    exact mul_nonneg (hadj p.1).1 (hw p hp)
  have hsum_ub : (weights.map (fun p => (adjustedFor scores rs (1/2) p.1).2 * p.2)).sum ≤ 1 := by
    calc (weights.map (fun p => (adjustedFor scores rs (1/2) p.1).2 * p.2)).sum
        ≤ (weights.map Prod.snd).sum := by
          apply List.sum_le_sum
          intro p hp
          exact mul_le_of_le_one_left (hw p hp) (hadj p.1).2
      _ = 1 := hsum
  constructor
  · have := roundTo_mono (n := 2) (mul_nonneg hsum_lb (by norm_num : (0:ℚ) ≤ 100))
    rw [roundTo_zero] at this
    exact this
  · have h100 : (weights.map (fun p => (adjustedFor scores rs (1/2) p.1).2 * p.2)).sum * 100
        ≤ 100 := by nlinarith
    have := roundTo_mono (n := 2) h100
    rw [roundTo_two_hundred] at this
    exact this

/-- Witness for `c3_data_score_bounds`: the all-one single-dimension input
under the default weight table, with severities omitted. -/
theorem c3_witness :
    0 ≤ DataScorer.data_score defaultScoreWeights [("completeness", 1)] none (1/2)
      ∧ DataScorer.data_score defaultScoreWeights [("completeness", 1)] none (1/2) ≤ 100 :=
  c3_data_score_bounds defaultScoreWeights [("completeness", 1)] none
    (by intro p hp; fin_cases hp <;> norm_num)
    (by norm_num [defaultScoreWeights])
    (by intro p hp; fin_cases hp <;> norm_num)

/-- C7: for every fixed failing raw score r < 0.5, the severity-adjusted
score computed by `apply_risk_weight` is monotone in severity:
adjusted(r, HIGH) ≤ adjusted(r, MEDIUM) ≤ adjusted(r, LOW). -/
theorem c7_severity_monotone (r : ℚ) (h : r < 1/2) :
    apply_risk_weight r "HIGH" (decide (r ≥ 1/2))
        ≤ apply_risk_weight r "MEDIUM" (decide (r ≥ 1/2))
    ∧ apply_risk_weight r "MEDIUM" (decide (r ≥ 1/2))
        ≤ apply_risk_weight r "LOW" (decide (r ≥ 1/2)) := by
  have hd : decide (r ≥ 1/2) = false := decide_eq_false (not_le.mpr h)
  rw [hd, apply_risk_weight_false, apply_risk_weight_false, apply_risk_weight_false]
  have wH : specSeverityWeightC1 "HIGH" = 2 := rfl
  have wM : specSeverityWeightC1 "MEDIUM" = 3/2 := rfl
  have wL : specSeverityWeightC1 "LOW" = 1 := rfl
  rw [wH, wM, wL]
  rcases le_or_lt 0 r with h0 | h0
  · constructor
    · apply max_le_max le_rfl
      apply min_le_min le_rfl
      rw [div_le_div_iff (by norm_num) (by norm_num)]
      nlinarith
    · apply max_le_max le_rfl
      apply min_le_min le_rfl
      rw [div_le_div_iff (by norm_num) (by norm_num)]
      nlinarith
  · have e : ∀ w : ℚ, 0 < w → max 0 (min 1 (r / w)) = 0 := by
      intro w hwpos
      have hneg : r / w < 0 := div_neg_of_neg_of_pos h0 hwpos
      rw [min_eq_right (le_of_lt (lt_of_lt_of_le hneg (by norm_num)))]
      exact max_eq_left hneg.le
    rw [e 2 (by norm_num), e (3/2) (by norm_num), e 1 (by norm_num)]
    exact ⟨le_refl 0, le_refl 0⟩

/-- Witness for `c7_severity_monotone` at the failing raw score 0.3. -/
theorem c7_witness :
    apply_risk_weight (3/10) "HIGH" (decide ((3:ℚ)/10 ≥ 1/2))
        ≤ apply_risk_weight (3/10) "MEDIUM" (decide ((3:ℚ)/10 ≥ 1/2))
    ∧ apply_risk_weight (3/10) "MEDIUM" (decide ((3:ℚ)/10 ≥ 1/2))
        ≤ apply_risk_weight (3/10) "LOW" (decide ((3:ℚ)/10 ≥ 1/2)) :=
  c7_severity_monotone (3/10) (by norm_num)

/-! ### integrity/engine.py — rule loop (claim C9)

`IntegrityEngine.run` iterates over `RULE_REGISTRY` (engine.py, lines
129-144); each rule evaluation either returns a score or raises.  The
outcome of one evaluation is modelled as `Except String ℚ` (the exception
message as the error).  The loop body is translated directly: an `ok`
outcome stores the score, an exception stores score `0.0` and appends a
`RuntimeWarning` message built from the rule name and the exception. -/

/-- The registered rule names of `RULE_REGISTRY` (integrity/rules.py,
lines 314-320), in registration order. -/
def RULE_REGISTRY_KEYS : List String :=
  ["completeness", "uniqueness", "validity", "consistency", "timeliness"]

/-- The warning message emitted when a rule raises (engine.py, lines
140-144): `f"Rule {rule_name!r} raised an exception and will score 0: {exc}"`
(the `!r` quotation marks around the name are omitted in this model). -/
def ruleWarning (rule_name exc : String) : String :=
  "Rule " ++ rule_name ++ " raised an exception and will score 0: " ++ exc

/-- Embedding of the rule loop of `IntegrityEngine.run` (engine.py, lines
126-144): returns the `dimension_scores` association list and the list of
warnings, given the evaluation outcome of each rule. -/
def runRules (rules : List String) (evalRes : String → Except String ℚ) :
    List (String × ℚ) × List String :=
  match rules with
  | [] => ([], [])
  | r :: rest =>
      let tail := runRules rest evalRes
      match evalRes r with
      | Except.ok s => ((r, s) :: tail.1, tail.2)
      | Except.error e => ((r, 0) :: tail.1, ruleWarning r e :: tail.2)

/-- C9: for every rule list and every assignment of evaluation outcomes, a
rule whose evaluation raises is recorded with score 0.0 and surfaced as a
warning naming the rule, and the returned dimension_scores cover every
registered rule in order — one broken rule never aborts the audit. -/
theorem c9_rule_failure_isolation (rules : List String)
    (evalRes : String → Except String ℚ) :
    ((runRules rules evalRes).1.map Prod.fst = rules)
    ∧ (∀ r e, r ∈ rules → evalRes r = Except.error e →
        ((r, (0:ℚ)) ∈ (runRules rules evalRes).1
         ∧ ruleWarning r e ∈ (runRules rules evalRes).2
         ∧ r.data.IsInfix (ruleWarning r e).data)) := by
  induction rules with
  | nil =>
      refine ⟨rfl, ?_⟩
      intro r e hr
      exact absurd hr (List.not_mem_nil r)
  | cons a rest ih =>
      have hinfix : ∀ r e : String, r.data.IsInfix (ruleWarning r e).data := by
        intro r e
        refine ⟨("Rule ").data, (" raised an exception and will score 0: " ++ e).data, ?_⟩
        show "Rule ".data ++ r.data ++ (" raised an exception and will score 0: " ++ e).data
          = (ruleWarning r e).data
        unfold ruleWarning
        simp [String.data_append]
      cases hev : evalRes a with
      | ok s =>
          constructor
          · simp only [runRules, hev, List.map_cons]
            rw [ih.1]
          · intro r e hr herr
            rcases List.mem_cons.mp hr with rfl | hmem
            · rw [herr] at hev
              cases hev
            · obtain ⟨hsc, hwarn, _⟩ := ih.2 r e hmem herr
              simp only [runRules, hev]
              exact ⟨List.mem_cons_of_mem _ hsc, hwarn, hinfix r e⟩
      | error e0 =>
          constructor
          · simp only [runRules, hev, List.map_cons]
            rw [ih.1]
          · intro r e hr herr
            rcases List.mem_cons.mp hr with rfl | hmem
            · rw [herr] at hev
              injection hev with he
              subst he
              simp only [runRules, herr]
              exact ⟨List.mem_cons_self _ _, List.mem_cons_self _ _, hinfix r e⟩
            · obtain ⟨hsc, hwarn, _⟩ := ih.2 r e hmem herr
              simp only [runRules, hev]
              exact ⟨List.mem_cons_of_mem _ hsc, List.mem_cons_of_mem _ hwarn, hinfix r e⟩

/-- Witness for `c9_rule_failure_isolation`: the real registry keys with
the uniqueness rule raising; the audit still records all five scores, the
failed rule scores 0 and the warning names it. -/
theorem c9_witness :
    ((runRules RULE_REGISTRY_KEYS
        (fun r => if r == "uniqueness" then Except.error "boom" else Except.ok 1)).1.map
          Prod.fst = RULE_REGISTRY_KEYS)
    ∧ ("uniqueness", (0:ℚ)) ∈ (runRules RULE_REGISTRY_KEYS
        (fun r => if r == "uniqueness" then Except.error "boom" else Except.ok 1)).1
    ∧ ruleWarning "uniqueness" "boom" ∈ (runRules RULE_REGISTRY_KEYS
        (fun r => if r == "uniqueness" then Except.error "boom" else Except.ok 1)).2 := by
  obtain ⟨h1, h2⟩ := c9_rule_failure_isolation RULE_REGISTRY_KEYS
    (fun r => if r == "uniqueness" then Except.error "boom" else Except.ok 1)
  obtain ⟨hsc, hwarn, _⟩ := h2 "uniqueness" "boom" (by decide) rfl
  exact ⟨h1, hsc, hwarn⟩

/-! ### policies/file_policy.py — FilePolicy.evaluate (claim C5)

The policy section of the YAML file is modelled as an association list of
numeric dimension thresholds plus an optional structured `pii` sub-block;
the audit record supplies `dimension_scores`, the `pii_summary` block and
the flat `pii_findings` list.  Message strings keep the dimension/column
names; Python's float formatting is abstracted to the rational's string. -/

/-- One entry of a column's `pii_findings` list (ingestion/pii.py,
lines 262-270 and 284-292).  The dict key "matches" is rendered as
`matchCount` (the word is reserved in Lean). -/
structure Finding where
  column : String
  dominant_type : String
  category : String
  highest_risk : String
  confidence : String
  matchCount : ℕ
  match_ratio : ℚ
  deriving DecidableEq

/-- The dataset-level `pii_summary` block (ingestion/pii.py, lines 129-137). -/
structure ScanSummary where
  high_risk_columns : ℕ
  medium_risk_columns : ℕ
  low_risk_columns : ℕ
  total_columns_with_pii : ℕ
  total_matches : ℕ
  is_sampled : Bool
  sample_size : ℕ
  deriving DecidableEq

/-- The reserved `pii` sub-block of a threshold policy file
(file_policy.py, lines 83-111): `block_high_risk` is its truthiness,
`max_medium_risk_ratio` and `allow_low_risk` are present-or-absent keys. -/
structure PiiPolicyCfg where
  block_high_risk : Bool
  max_medium_risk_ratio : Option ℚ
  allow_low_risk : Option Bool
  deriving DecidableEq

/-- Violation message for a failing dimension (file_policy.py, line 78). -/
def dimMsg (dim : String) (actual minScore : ℚ) : String :=
  "Dimension " ++ dim ++ " failed: score " ++ toString actual
    ++ " < threshold " ++ toString minScore

/-- Violation message for blocked high-risk PII (file_policy.py, line 87). -/
def highRiskMsg : String := "PII Policy Violation: High-risk PII columns detected."

/-- Violation message for a medium-risk ratio breach (file_policy.py,
lines 102-104). -/
def mediumRiskMsg (col : String) (ratio maxr : ℚ) : String :=
  "PII Policy Violation: Column " ++ col ++ " medium-risk ratio "
    ++ toString ratio ++ " > threshold " ++ toString maxr

/-- Violation message for disallowed low-risk PII (file_policy.py, line 110). -/
def lowRiskMsg : String := "PII Policy Violation: Low-risk PII detected (disallowed)."

/-- The dimension-threshold loop of `FilePolicy.evaluate` (file_policy.py,
lines 73-80): the reserved "pii" key is skipped; a dimension present in
`dimension_scores` and below its minimum yields a violation; a dimension
absent from `dimension_scores` is skipped (`if actual_score is not None`). -/
def dimViolations (policyDims : List (String × ℚ))
    (dimension_scores : List (String × ℚ)) : List String :=
  policyDims.filterMap (fun p =>
    if p.1 = "pii" then none
    else
      match lookup? dimension_scores p.1 with
      | some actual => if actual < p.2 then some (dimMsg p.1 actual p.2) else none
      | none => none)

/-- The PII governance checks of `FilePolicy.evaluate` (file_policy.py,
lines 82-111), in source order: high-risk block, medium-risk ratio loop
over the flat findings, low-risk allowance. -/
def piiViolations (piiPolicy : Option PiiPolicyCfg) (pii_summary : ScanSummary)
    (pii_findings : List Finding) : List String :=
  match piiPolicy with
  | none => []
  | some pp =>
      (if pp.block_high_risk && decide (pii_summary.high_risk_columns > 0)
       then [highRiskMsg] else [])
      ++ (match pp.max_medium_risk_ratio with
          | none => []
          | some maxr =>
              pii_findings.filterMap (fun f =>
                if f.highest_risk = "medium" ∧ f.match_ratio > maxr
                then some (mediumRiskMsg f.column f.match_ratio maxr) else none))
      ++ (if pp.allow_low_risk = some false && decide (pii_summary.low_risk_columns > 0)
          then [lowRiskMsg] else [])

/-- The verdict returned by `FilePolicy.evaluate` (file_policy.py,
lines 113-123; the constant `policy`/`type`/`version` fields are omitted). -/
structure PolicyVerdict where
  status : String
  passed : Bool
  violations : List String
  pii_violation : Bool
  deriving DecidableEq

/-- Embedding of `FilePolicy.evaluate` (file_policy.py, lines 53-123):
accumulates dimension violations then PII violations; `status` is PASS
exactly when the violation list is empty. -/
def FilePolicy.evaluate (policyDims : List (String × ℚ))
    (piiPolicy : Option PiiPolicyCfg) (dimension_scores : List (String × ℚ))
    (pii_summary : ScanSummary) (pii_findings : List Finding) : PolicyVerdict :=
  let dimV := dimViolations policyDims dimension_scores
  let piiV := piiViolations piiPolicy pii_summary pii_findings
  let violations := dimV ++ piiV
  { status := if violations.isEmpty then "PASS" else "FAIL",
    passed := violations.isEmpty,
    violations := violations,
    pii_violation := !piiV.isEmpty }

/-- C5 (amended): every dimension named in the policy whose score in the
audit is below the policy minimum yields a violation; a dimension named in
the policy but absent from the audit record is skipped (it yields no
violation and does not change the verdict); status is PASS iff the
violation list is empty; and violations are accumulated, not
short-circuited, so every failing check is reported at once. -/
theorem c5_amended (policyDims : List (String × ℚ)) (piiPolicy : Option PiiPolicyCfg)
    (scores : List (String × ℚ)) (summary : ScanSummary) (findings : List Finding) :
    (∀ d m, (d, m) ∈ policyDims → d ≠ "pii" → ∀ s, lookup? scores d = some s → s < m →
        dimMsg d s m ∈ (FilePolicy.evaluate policyDims piiPolicy scores summary findings).violations)
    ∧ (∀ pre post (d : String) (m : ℚ), lookup? scores d = none →
        FilePolicy.evaluate (pre ++ (d, m) :: post) piiPolicy scores summary findings
          = FilePolicy.evaluate (pre ++ post) piiPolicy scores summary findings)
    ∧ ((FilePolicy.evaluate policyDims piiPolicy scores summary findings).status = "PASS"
        ↔ (FilePolicy.evaluate policyDims piiPolicy scores summary findings).violations = []) := by
  refine ⟨?_, ?_, ?_⟩
  · intro d m hmem hne s hlook hlt
    show dimMsg d s m ∈ dimViolations policyDims scores ++ piiViolations piiPolicy summary findings
    apply List.mem_append_left
    apply List.mem_filterMap.mpr
    refine ⟨(d, m), hmem, ?_⟩
    rw [if_neg hne, hlook]
    simp [hlt]
  · intro pre post d m hlook
    have hdim : dimViolations (pre ++ (d, m) :: post) scores = dimViolations (pre ++ post) scores := by
      unfold dimViolations
      rw [List.filterMap_append, List.filterMap_append, List.filterMap_cons]
      by_cases hpii : d = "pii"
      · rw [if_pos hpii]
      · rw [if_neg hpii, hlook]
    show FilePolicy.evaluate _ _ _ _ _ = FilePolicy.evaluate _ _ _ _ _
    unfold FilePolicy.evaluate
    rw [hdim]
  · show (if (dimViolations policyDims scores ++ piiViolations piiPolicy summary findings).isEmpty
        then "PASS" else "FAIL") = "PASS"
      ↔ dimViolations policyDims scores ++ piiViolations piiPolicy summary findings = []
    cases hemp : (dimViolations policyDims scores ++ piiViolations piiPolicy summary findings).isEmpty with
    | true =>
        rw [if_pos rfl]
        simp only [List.isEmpty_iff] at hemp
        exact ⟨fun _ => hemp, fun _ => rfl⟩
    | false =>
        rw [if_neg (by exact fun h => Bool.noConfusion h)]
        constructor
        · intro h
          exact absurd h (by decide)
        · intro h
          rw [h] at hemp
          exact absurd hemp (by decide)

/-- Witness for `c5_amended`: a completeness score 0.90 against a 0.95
policy minimum is reported; a policy entry for a dimension missing from
the audit is skipped; PASS iff no violations. -/
theorem c5_amended_witness :
    dimMsg "completeness" (9/10) (19/20)
        ∈ (FilePolicy.evaluate [("completeness", 19/20)] none [("completeness", 9/10)]
            ⟨0, 0, 0, 0, 0, false, 0⟩ []).violations
    ∧ FilePolicy.evaluate ([] ++ ("uniqueness", (1:ℚ)) :: []) none [("completeness", 9/10)]
        ⟨0, 0, 0, 0, 0, false, 0⟩ []
      = FilePolicy.evaluate ([] ++ []) none [("completeness", 9/10)]
        ⟨0, 0, 0, 0, 0, false, 0⟩ []
    ∧ ((FilePolicy.evaluate [("completeness", 19/20)] none [("completeness", 9/10)]
            ⟨0, 0, 0, 0, 0, false, 0⟩ []).status = "PASS"
        ↔ (FilePolicy.evaluate [("completeness", 19/20)] none [("completeness", 9/10)]
            ⟨0, 0, 0, 0, 0, false, 0⟩ []).violations = []) := by
  obtain ⟨h1, h2, h3⟩ := c5_amended [("completeness", 19/20)] none [("completeness", 9/10)]
    ⟨0, 0, 0, 0, 0, false, 0⟩ []
  refine ⟨h1 "completeness" (19/20) (List.mem_singleton.mpr rfl) (by decide) (9/10) rfl
      (by norm_num), ?_, h3⟩
  obtain ⟨_, h2', _⟩ := c5_amended [("uniqueness", (1:ℚ))] none [("completeness", 9/10)]
    ⟨0, 0, 0, 0, 0, false, 0⟩ []
  exact h2' [] [] "uniqueness" 1 rfl

/-- Counterexample to C5 as stated: the claim says a dimension named in
the policy but absent from the audit record is itself a violation.  With
policy requiring completeness >= 0.95 and an audit record containing no
dimension_scores at all, the source skips the check entirely
(`if actual_score is not None`) and returns PASS with no violations. -/
theorem c5_counterexample :
    (FilePolicy.evaluate [("completeness", 19/20)] none []
        ⟨0, 0, 0, 0, 0, false, 0⟩ []).violations = []
    ∧ (FilePolicy.evaluate [("completeness", 19/20)] none []
        ⟨0, 0, 0, 0, 0, false, 0⟩ []).status = "PASS" :=
  ⟨rfl, rfl⟩

/-! ### ingestion/pii_registry.py -/

/-- Embedding of `luhn_check` (ingestion/pii_registry.py, lines 23-39):
Luhn checksum over the digits of the string (every second digit from the
right doubled, minus 9 when above 9); an all-non-digit string fails. -/
def luhn_check (number : String) : Bool :=
  let digits := (number.data.filter Char.isDigit).map (fun c => c.toNat - 48)
  if digits.isEmpty then false
  else
    let reverse_digits := digits.reverse
    let checksum := (reverse_digits.enum.map (fun p =>
      if p.1 % 2 == 1 then
        let d := p.2 * 2
        if d > 9 then d - 9 else d
      else p.2)).sum
    checksum % 10 == 0

/-- A registry row of `GLOBAL_PII_REGISTRY` (ingestion/pii_registry.py,
lines 10-21).  The entity's `regex` pattern string is not carried in the
model; compiled patterns are supplied as boolean predicates alongside the
entity (see `registryEvents`). -/
structure PIIEntity where
  type : String
  category : String
  country : String
  risk_level : String
  confidence : String
  priority : ℕ
  deriving DecidableEq

/-- The eight-entry `GLOBAL_PII_REGISTRY` (ingestion/pii_registry.py,
lines 41-114), in source order: ssn_us, aadhaar_india, pan_india,
gstin_india, ni_uk, credit_card, iban, passport. -/
def GLOBAL_PII_REGISTRY : List PIIEntity :=
  [⟨"ssn_us", "identity", "US", "high", "high", 2⟩,
   ⟨"aadhaar_india", "identity", "IN", "high", "high", 2⟩,
   ⟨"pan_india", "identity", "IN", "high", "high", 2⟩,
   ⟨"gstin_india", "identity", "IN", "high", "high", 2⟩,
   ⟨"ni_uk", "identity", "UK", "high", "high", 2⟩,
   ⟨"credit_card", "financial", "global", "high", "high", 1⟩,
   ⟨"iban", "financial", "global", "high", "high", 3⟩,
   ⟨"passport", "identity", "global", "high", "medium", 4⟩]

/-! ### ingestion/pii.py — helpers -/

/-- Multiplicities of the distinct characters of a string (the
`value_counts` of `calculate_shannon_entropy`, pii.py line 30). -/
def charCounts (s : String) : List ℕ :=
  s.data.eraseDups.map (fun c => s.data.count c)

/-- Decides `calculate_shannon_entropy(text) < 2.0` exactly (pii.py,
lines 23-32): the entropy is `-Σ (c/n)·log2(c/n)` over the character
multiplicities `c` with `n = len(text)`; multiplying the inequality by `n`
and exponentiating base 2 gives the equivalent integer comparison
`n^n < 2^(2n) · Π c^c`.  The empty string has entropy 0, below 2. -/
def entropyLtTwo (text : String) : Bool :=
  if text.isEmpty then true
  else
    let n := text.data.length
    decide (n ^ n < 2 ^ (2 * n) * ((charCounts text).map (fun c => c ^ c)).prod)

/-- The digits 0-9 in ascending order (the string literal of pii.py,
line 318). -/
def ascendingDigits : List Char := "0123456789".data

/-- The digits 9-0 in descending order (pii.py, line 318). -/
def descendingDigits : List Char := "9876543210".data

/-- Embedding of `PIIDetector._is_noisy` (pii.py, lines 308-322): the
digit subsequence of the value is noisy when it is nonempty and either
all-one-digit and longer than 4, or an infix of "0123456789" or of
"9876543210" (Python's substring test `clean in ...`) and longer than 4. -/
def PIIDetector.is_noisy (val : String) : Bool :=
  let clean := val.data.filter Char.isDigit
  if clean.isEmpty then false
  else if clean.eraseDups.length == 1 && decide (4 < clean.length) then true
  else if (decide (clean <:+: ascendingDigits) || decide (clean <:+: descendingDigits))
      && decide (4 < clean.length) then true
  else false

/-- Python `str.isdigit()` restricted to ASCII digits: nonempty and all
characters are digits. -/
def pyIsDigit (s : String) : Bool := !s.isEmpty && s.data.all Char.isDigit

/-- Python `re.match` of the anchored pattern for an ISO date prefix:
four digits, a dash, two digits, a dash, two digits (pii.py, line 107). -/
def isIsoDateShaped (s : String) : Bool :=
  match s.data with
  | a :: b :: c :: d :: h1 :: e :: f :: h2 :: g :: h :: _ =>
      a.isDigit && b.isDigit && c.isDigit && d.isDigit && h1 == '-'
        && e.isDigit && f.isDigit && h2 == '-' && g.isDigit && h.isDigit
  | _ => false

/-- The generic-identifier keyword list (pii.py, line 274). -/
def genericIdKeywords : List String :=
  ["id", "identifier", "national", "tax", "gov", "registration"]

/-- The keyword test `any(kw in col_name.lower() for kw in keywords)`
(pii.py, line 275): substring containment in the lowercased name. -/
def hasKeyword (col_name : String) : Bool :=
  genericIdKeywords.any (fun kw => decide (kw.data <:+: (pyLower col_name).data))

/-- One candidate match record appended to `row_matches` (pii.py, lines
190-196 and 219-226); legacy candidates carry no `val` key. -/
structure PIIMatch where
  type : String
  priority : ℕ
  category : String
  risk_level : String
  confidence : String
  val : Option String
  deriving DecidableEq

/-- The non-null values of a column with their positional indices,
starting at `i`: models `zip(string_values.index, string_values)` after
`series.dropna().astype(str)` (pii.py, line 150 and 178). -/
def nonNullFrom (i : ℕ) : List (Option String) → List (ℕ × String)
  | [] => []
  | none :: rest => nonNullFrom (i + 1) rest
  | some v :: rest => (i, v) :: nonNullFrom (i + 1) rest

/-- The non-null values of a column with their row indices. -/
def nonNullValues (cells : List (Option String)) : List (ℕ × String) :=
  nonNullFrom 0 cells

/-- The risk level attached to a legacy pattern match (pii.py, line 194). -/
def legacyRisk (pattern_name : String) : String :=
  if pattern_name = "email" || pattern_name = "phone" then "medium" else "low"

/-- The candidate record for a legacy configured-pattern match (pii.py,
lines 190-196): priority 99, category "legacy", confidence "high". -/
def mkLegacyMatch (pattern_name : String) : PIIMatch :=
  ⟨pattern_name, 99, "legacy", legacyRisk pattern_name, "high", none⟩

/-- The candidate record for a global-registry match (pii.py, lines
219-226). -/
def mkRegistryMatch (ent : PIIEntity) (val : String) : PIIMatch :=
  ⟨ent.type, ent.priority, ent.category, ent.risk_level, ent.confidence, some val⟩

/-- The legacy configured-pattern loop of `_scan_column` (pii.py, lines
172-196), emitting `(row index, candidate)` events in iteration order
(patterns outer, rows inner): a pattern in the phone/ssn/credit_card set
is skipped entirely for columns with decimals; a matching value is dropped
when noisy, or when it is a purely numeric phone match in a numeric
column. -/
def legacyEvents (legacy : List (String × (String → Bool)))
    (sv : List (ℕ × String)) (is_numeric has_decimals : Bool) :
    List (ℕ × PIIMatch) :=
  (legacy.map (fun pr =>
    if has_decimals && (pr.1 == "phone" || pr.1 == "ssn" || pr.1 == "credit_card") then []
    else sv.filterMap (fun p =>
      if pr.2 p.2 then
        if PIIDetector.is_noisy p.2 then none
        else if is_numeric && pr.1 == "phone" && pyIsDigit p.2 then none
        else some (p.1, mkLegacyMatch pr.1)
      else none))).join

/-- The global-registry loop of `_scan_column` (pii.py, lines 198-226):
identity/financial entities are skipped for columns with decimals; a
matching value is dropped when it is a credit_card candidate failing the
Luhn check, when noisy, or when it is a purely numeric passport match in a
numeric column. -/
def registryEvents (compiled : List (PIIEntity × (String → Bool)))
    (sv : List (ℕ × String)) (is_numeric has_decimals : Bool) :
    List (ℕ × PIIMatch) :=
  (compiled.map (fun pr =>
    if has_decimals && (pr.1.category == "identity" || pr.1.category == "financial") then []
    else sv.filterMap (fun p =>
      if pr.2 p.2 then
        if pr.1.type == "credit_card" && !luhn_check p.2 then none
        else if PIIDetector.is_noisy p.2 then none
        else if is_numeric && pr.1.type == "passport" && pyIsDigit p.2 then none
        else some (p.1, mkRegistryMatch pr.1 p.2)
      else none))).join

/-- Insertion into the `row_matches` dict (pii.py, lines 189 and 218):
an existing row appends to its list; a new row is appended at the end
(Python dicts preserve key insertion order). -/
def addMatch (rm : List (ℕ × List PIIMatch)) (idx : ℕ) (m : PIIMatch) :
    List (ℕ × List PIIMatch) :=
  match rm with
  | [] => [(idx, [m])]
  | e :: rest => if e.1 = idx then (e.1, e.2 ++ [m]) :: rest else e :: addMatch rest idx m

/-- The `row_matches` dict built from the candidate events of both loops. -/
def rowMatches (events : List (ℕ × PIIMatch)) : List (ℕ × List PIIMatch) :=
  events.foldl (fun rm p => addMatch rm p.1 p.2) []

/-- Stable insertion of a match into a priority-sorted list: the new
element goes before the first existing element whose priority is not
strictly smaller, so earlier candidates win ties. -/
def insertByPriority (m : PIIMatch) : List PIIMatch → List PIIMatch
  | [] => [m]
  | b :: rest => if b.priority < m.priority then b :: insertByPriority m rest
                 else m :: b :: rest

/-- Models Python's stable `sorted(matches, key=lambda x: x["priority"])`
(pii.py, line 234) as a stable insertion sort. -/
def sortByPriority : List PIIMatch → List PIIMatch
  | [] => []
  | a :: rest => insertByPriority a (sortByPriority rest)

/-- Priority resolution (pii.py, lines 228-236): for each row the first
element of the stable priority sort is kept. -/
def resolvedMatches (rm : List (ℕ × List PIIMatch)) : List PIIMatch :=
  rm.filterMap (fun p => (sortByPriority p.2).head?)

/-- Incrementing the `type_counts` dict (pii.py, lines 239-242). -/
def incrType (tc : List (String × ℕ)) (t : String) : List (String × ℕ) :=
  match tc with
  | [] => [(t, 1)]
  | e :: rest => if e.1 = t then (e.1, e.2 + 1) :: rest else e :: incrType rest t

/-- The per-type counts of the resolved matches, in first-occurrence
order. -/
def typeCounts (resolved : List PIIMatch) : List (String × ℕ) :=
  resolved.foldl (fun tc m => incrType tc m.type) []

/-- The per-type findings loop of `_scan_column` (pii.py, lines 244-270):
for each type, the first resolved match of that type supplies the
metadata; the finding is dropped when `match_ratio < 0.01` and confidence
is not high, or when the sample match carries a `val` whose entropy is
below 2.0 and confidence is not high. -/
def mkFindings (col_name : String) (scan_total : ℕ) (resolved : List PIIMatch)
    (tc : List (String × ℕ)) : List Finding :=
  tc.filterMap (fun p =>
    match resolved.find? (fun m => m.type == p.1) with
    | none => none
    | some sample_match =>
        let match_ratio : ℚ := (p.2 : ℚ) / (scan_total : ℚ)
        if match_ratio < 1/100 ∧ sample_match.confidence ≠ "high" then none
        else if (match sample_match.val with
            | some v => entropyLtTwo v && decide (sample_match.confidence ≠ "high")
            | none => false) then none
        else some ⟨col_name, p.1, sample_match.category, sample_match.risk_level,
            sample_match.confidence, p.2, roundTo 4 match_ratio⟩)

/-- A single column's PII report (pii.py, lines 301-306). -/
structure ColReport where
  pii_detected : Bool
  count : ℕ
  patterns_hit : List (String × ℕ)
  pii_findings : List Finding
  deriving DecidableEq

/-- The distinct-value ratio `series.nunique() / scan_total` of the
heuristic (pii.py, line 276), over the string-cell model. -/
def uniqueRatio (sv : List (ℕ × String)) (scan_total : ℕ) : ℚ :=
  ((sv.map Prod.snd).eraseDups.length : ℚ) / (scan_total : ℚ)

/-- The mean string length of the first 100 non-null values (pii.py,
lines 277-278). -/
def avgLen (sv : List (ℕ × String)) : ℚ :=
  ((sv.take 100).map (fun p => (p.2.length : ℚ))).sum / (((sv.take 100).length : ℚ))

/-- The generic-identifier heuristic of `_scan_column` (pii.py, lines
272-292), which only runs when no registry-based finding survived: when
the column name carries an identifier keyword, the average sampled string
length lies in [8, 20] and the distinct-value ratio exceeds 0.8, a
synthetic medium-risk finding covering all non-null rows is emitted and
the affected-row set is widened to all non-null rows; the second component
is the resulting `len(rows_with_any_hit)`. -/
def generic_identifier_heuristic (col_name : String) (sv : List (ℕ × String))
    (row_matches : List (ℕ × List PIIMatch)) (scan_total : ℕ) :
    List Finding × ℕ :=
  if hasKeyword col_name then
    if 8 ≤ avgLen sv ∧ avgLen sv ≤ 20 ∧ uniqueRatio sv scan_total > 4/5 then
      ([⟨col_name, "unknown_structured_identifier", "identity", "medium", "medium",
          sv.length, roundTo 4 ((sv.length : ℚ) / (scan_total : ℚ))⟩],
       ((row_matches.map Prod.fst) ++ (sv.map Prod.fst)).eraseDups.length)
    else ([], (row_matches.map Prod.fst).eraseDups.length)
  else ([], (row_matches.map Prod.fst).eraseDups.length)

/-- The surviving per-type findings of a column (pii.py, lines 238-270):
resolved matches grouped by type and filtered by the guards. -/
def columnFindings0 (col_name : String) (scan_total : ℕ)
    (row_matches : List (ℕ × List PIIMatch)) : List Finding :=
  mkFindings col_name scan_total (resolvedMatches row_matches)
    (typeCounts (resolvedMatches row_matches))

/-- The final findings list and `len(rows_with_any_hit)` of a column
(pii.py, lines 272-294): the heuristic runs only when no finding
survived; otherwise the affected rows are exactly the keys of
`row_matches`. -/
def findingsAndCount (col_name : String) (sv : List (ℕ × String))
    (row_matches : List (ℕ × List PIIMatch)) (scan_total : ℕ)
    (findings0 : List Finding) : List Finding × ℕ :=
  if findings0.isEmpty then generic_identifier_heuristic col_name sv row_matches scan_total
  else (findings0, (row_matches.map Prod.fst).eraseDups.length)

/-- The report assembled from a column's row matches (pii.py, lines
228-306): `pii_detected = pii_count > 0 or pii_findings`, with
`patterns_hit` the per-type counts of the resolved matches. -/
def resultReport (col_name : String) (scan_total : ℕ) (sv : List (ℕ × String))
    (row_matches : List (ℕ × List PIIMatch)) : ColReport :=
  ⟨decide (0 < (findingsAndCount col_name sv row_matches scan_total
        (columnFindings0 col_name scan_total row_matches)).2)
      || !(findingsAndCount col_name sv row_matches scan_total
        (columnFindings0 col_name scan_total row_matches)).1.isEmpty,
   (findingsAndCount col_name sv row_matches scan_total
        (columnFindings0 col_name scan_total row_matches)).2,
   typeCounts (resolvedMatches row_matches),
   (findingsAndCount col_name sv row_matches scan_total
        (columnFindings0 col_name scan_total row_matches)).1⟩

/-- Embedding of `PIIDetector._scan_column` (pii.py, lines 148-306).
Inputs are the column name, the (possibly sampled) cells, the column dtype
facts (`is_numeric`, and `has_decimals`, which the source derives from the
numeric representation of the first 1000 values and the string model
carries as a given), and `scan_total`.  An all-null column reports
nothing; otherwise the candidate events of the legacy and registry loops
are folded into the `row_matches` dict and assembled into the report. -/
def PIIDetector.scan_column (legacy : List (String × (String → Bool)))
    (compiled : List (PIIEntity × (String → Bool)))
    (col_name : String) (cells : List (Option String))
    (is_numeric has_decimals : Bool) (scan_total : ℕ) : ColReport :=
  if (nonNullValues cells).isEmpty then ⟨false, 0, [], []⟩
  else
    resultReport col_name scan_total (nonNullValues cells)
      (rowMatches (legacyEvents legacy (nonNullValues cells) is_numeric has_decimals
        ++ registryEvents compiled (nonNullValues cells) is_numeric has_decimals))

/-- A dataset column as seen by the scanner: the cell values rendered as
optional strings (None = null), plus the dtype facts the source reads off
the pandas series (`is_bool_dtype`, `is_datetime64_any_dtype`,
`is_numeric_dtype`, and the derived `has_decimals`). -/
structure Column where
  name : String
  cells : List (Option String)
  is_numeric : Bool
  is_bool : Bool
  is_datetime : Bool
  has_decimals : Bool

/-- A dataset for the scanner: its columns and its total row count
(`len(df)`; each column has `nrows` cells). -/
structure PIIDataset where
  columns : List Column
  nrows : ℕ

/-- The ISO-date column heuristic of `scan` (pii.py, lines 104-109): the
first 20 non-null values are checked against the anchored date pattern;
the column is skipped when at least 80 percent match. -/
def dateShapedSkip (cells : List (Option String)) : Bool :=
  let sample_head := (cells.filterMap id).take 20
  if sample_head.isEmpty then false
  else decide (((sample_head.countP (fun s => isIsoDateShaped s) : ℚ))
      / (sample_head.length : ℚ) ≥ 4/5)

/-- The column pre-filter of `scan` (pii.py, lines 100-109): boolean and
datetime columns are skipped, as are predominantly ISO-date columns. -/
def skipColumn (c : Column) : Bool :=
  c.is_bool || c.is_datetime || dateShapedSkip c.cells

/-- The running state of the column loop of `scan` (pii.py, lines 93-126):
collected reports, total matches, and the risk bucket counters. -/
structure ScanAcc where
  reports : List (String × ColReport)
  total_matches : ℕ
  high : ℕ
  medium : ℕ
  low : ℕ
  deriving DecidableEq

/-- The `risk_map` of `scan` (pii.py, line 122): unknown risk strings map
to 0. -/
def riskMapVal (s : String) : ℕ :=
  if s = "high" then 3 else if s = "medium" then 2 else if s = "low" then 1 else 0

/-- The highest risk among a column's findings (pii.py, lines 121-126),
starting from "low". -/
def highestRiskOf (findings : List Finding) : String :=
  findings.foldl
    (fun hr f => if riskMapVal f.highest_risk > riskMapVal hr then f.highest_risk else hr)
    "low"

/-- Bump the risk bucket of the column's highest finding risk; nothing is
bumped when the findings list is empty (pii.py, lines 119-126). -/
def addRisk (acc : ScanAcc) (findings : List Finding) : ScanAcc :=
  if findings.isEmpty then acc
  else
    let hr := highestRiskOf findings
    if hr = "high" then { acc with high := acc.high + 1 }
    else if hr = "medium" then { acc with medium := acc.medium + 1 }
    else { acc with low := acc.low + 1 }

/-- The column loop of `scan` (pii.py, lines 97-126): skipped columns
contribute nothing; a scanned column is recorded only when
`pii_detected`, adding its count to `total_matches` and bumping one risk
bucket when it has findings. -/
def scanCols (legacy : List (String × (String → Bool)))
    (compiled : List (PIIEntity × (String → Bool))) (scan_total : ℕ) :
    List Column → ScanAcc
  | [] => ⟨[], 0, 0, 0, 0⟩
  | c :: rest =>
      let acc := scanCols legacy compiled scan_total rest
      if skipColumn c then acc
      else
        let rep := PIIDetector.scan_column legacy compiled c.name c.cells
          c.is_numeric c.has_decimals scan_total
        if rep.pii_detected then
          let acc2 := addRisk acc rep.pii_findings
          ⟨(c.name, rep) :: acc2.reports, rep.count + acc2.total_matches,
           acc2.high, acc2.medium, acc2.low⟩
        else acc

/-- The result of `PIIDetector.scan`: the per-column reports that
detected PII, plus the dataset-level `pii_summary` block. -/
structure ScanOut where
  columns : List (String × ColReport)
  summary : ScanSummary

/-- Truncation of a column to the first `n` rows (`df.iloc[:n]`). -/
def Column.takeRows (n : ℕ) (c : Column) : Column := { c with cells := c.cells.take n }

/-- Assembles the scan output from the prepared (possibly sampled)
columns: runs the column loop and builds the summary block (pii.py,
lines 93-142) with `total_columns_with_pii = len(column_reports)`. -/
def scanPrepared (legacy : List (String × (String → Bool)))
    (compiled : List (PIIEntity × (String → Bool))) (cols : List Column)
    (scan_total : ℕ) (is_sampled : Bool) (sample_size : ℕ) : ScanOut :=
  let acc := scanCols legacy compiled scan_total cols
  ⟨acc.reports,
   ⟨acc.high, acc.medium, acc.low, acc.reports.length, acc.total_matches,
    is_sampled, sample_size⟩⟩

/-- Embedding of `PIIDetector.scan` (pii.py, lines 63-142; the default
`sample_threshold` is 100000): when the dataset exceeds the threshold,
exactly the first `sample_threshold` rows of every column are scanned,
`scan_total` becomes the threshold, and the summary records
`is_sampled = True` with `sample_size = sample_threshold`; otherwise all
rows are scanned and `sample_size = total_rows`. -/
def PIIDetector.scan (legacy : List (String × (String → Bool)))
    (compiled : List (PIIEntity × (String → Bool))) (ds : PIIDataset)
    (sample_threshold : ℕ) : ScanOut :=
  if ds.nrows > sample_threshold then
    scanPrepared legacy compiled (ds.columns.map (Column.takeRows sample_threshold))
      sample_threshold true sample_threshold
  else
    scanPrepared legacy compiled ds.columns ds.nrows false ds.nrows

/-- Control-flow model of the column loop of `scan` for the failure
semantics (pii.py, lines 97-126): `_scan_column` is called once per
column with no surrounding try/except, so a column scan that raises
(modelled as `Except.error`) propagates out of the whole loop. -/
def scanColumnsE (colScan : String → Except String ColReport) :
    List String → Except String (List (String × ColReport))
  | [] => Except.ok []
  | c :: rest =>
      match colScan c with
      | Except.error e => Except.error e
      | Except.ok r =>
          match scanColumnsE colScan rest with
          | Except.error e => Except.error e
          | Except.ok rs => Except.ok ((c, r) :: rs)

/-! ### Helper lemmas for the PII engine -/

/-- A flattened map is empty when every block is empty. -/
theorem join_map_eq_nil {α β : Type} (f : α → List β) (l : List α)
    (h : ∀ x ∈ l, f x = []) : (l.map f).join = [] := by
  induction l with
  | nil => rfl
  | cons a t ih =>
      rw [List.map_cons]
      show f a ++ (List.map f t).join = []
      rw [h a (List.mem_cons_self a t), List.nil_append]
      exact ih (fun x hx => h x (List.mem_cons_of_mem a hx))

/-- A filterMap that maps every member to `some` of a function is a map. -/
theorem filterMap_eq_map_of_forall {α β : Type} (f : α → Option β) (g : α → β)
    (l : List α) (h : ∀ x ∈ l, f x = some (g x)) : l.filterMap f = l.map g := by
  induction l with
  | nil => rfl
  | cons a t ih =>
      rw [List.filterMap_cons, h a (List.mem_cons_self a t), List.map_cons]
      rw [ih (fun x hx => h x (List.mem_cons_of_mem a hx))]

/-- The `eraseDups` loop drops every element already collected. -/
theorem eraseDups_loop_replicate {α : Type} [BEq α] (v : α) (bs : List α)
    (h : bs.elem v = true) :
    ∀ n, List.eraseDups.loop (List.replicate n v) bs = bs.reverse := by
  intro n
  induction n with
  | zero => rfl
  | succ k ih =>
      rw [List.replicate_succ]
      show List.eraseDups.loop (v :: List.replicate k v) bs = bs.reverse
      unfold List.eraseDups.loop
      rw [h]
      exact ih

/-- Erasing duplicates of a nonempty constant list yields the singleton. -/
theorem eraseDups_replicate_succ {α : Type} [BEq α] [LawfulBEq α] (v : α) (n : ℕ) :
    (List.replicate (n + 1) v).eraseDups = [v] := by
  show List.eraseDups.loop (List.replicate (n + 1) v) [] = [v]
  rw [List.replicate_succ]
  show List.eraseDups.loop (v :: List.replicate n v) [] = [v]
  unfold List.eraseDups.loop
  have : ([] : List α).elem v = false := rfl
  rw [this]
  exact eraseDups_loop_replicate v [v] (by simp) n

/-- A member of `nonNullFrom` comes from a non-null cell. -/
theorem mem_nonNullFrom {cells : List (Option String)} {i : ℕ} {p : ℕ × String}
    (h : p ∈ nonNullFrom i cells) : some p.2 ∈ cells := by
  induction cells generalizing i with
  | nil => exact absurd h (List.not_mem_nil p)
  | cons c t ih =>
      cases c with
      | none => exact List.mem_cons_of_mem none (ih h)
      | some v =>
          rw [show nonNullFrom i (some v :: t) = (i, v) :: nonNullFrom (i + 1) t from rfl]
            at h
          rcases List.mem_cons.mp h with rfl | hm
          · exact List.mem_cons_self _ _
          · exact List.mem_cons_of_mem _ (ih hm)

/-- Indices produced by `nonNullFrom i` are at least `i`. -/
theorem nonNullFrom_le {cells : List (Option String)} {i : ℕ} {p : ℕ × String}
    (h : p ∈ nonNullFrom i cells) : i ≤ p.1 := by
  induction cells generalizing i with
  | nil => exact absurd h (List.not_mem_nil p)
  | cons c t ih =>
      cases c with
      | none => exact Nat.le_of_succ_le (ih h)
      | some v =>
          rw [show nonNullFrom i (some v :: t) = (i, v) :: nonNullFrom (i + 1) t from rfl]
            at h
          rcases List.mem_cons.mp h with rfl | hm
          · exact Nat.le_refl _
          · exact Nat.le_of_succ_le (ih hm)

/-- The indices produced by `nonNullFrom` are strictly increasing, hence
pairwise distinct. -/
theorem nonNullFrom_pairwise (cells : List (Option String)) (i : ℕ) :
    ((nonNullFrom i cells).map Prod.fst).Pairwise (· < ·) := by
  induction cells generalizing i with
  | nil => exact List.Pairwise.nil
  | cons c t ih =>
      cases c with
      | none => exact ih (i + 1)
      | some v =>
          rw [show nonNullFrom i (some v :: t) = (i, v) :: nonNullFrom (i + 1) t from rfl]
          rw [List.map_cons]
          refine List.Pairwise.cons ?_ (ih (i + 1))
          intro j hj
          obtain ⟨q, hq, rfl⟩ := List.mem_map.mp hj
          exact Nat.lt_of_succ_le (nonNullFrom_le hq)

/-- `nonNullFrom` of an all-`some v` column enumerates `v` at consecutive
indices. -/
theorem nonNullFrom_replicate (v : String) (k i : ℕ) :
    nonNullFrom i (List.replicate k (some v))
      = (List.range k).map (fun j => (i + j, v)) := by
  induction k generalizing i with
  | zero => rfl
  | succ n ih =>
      rw [List.replicate_succ]
      show (i, v) :: nonNullFrom (i + 1) (List.replicate n (some v)) = _
      rw [ih (i + 1), List.range_succ_eq_map, List.map_cons, List.map_map]
      congr 1
      apply List.map_congr_left
      intro j _
      show (i + 1 + j, v) = (i + (j + 1), v)
      rw [Nat.add_right_comm i 1 j, Nat.add_assoc]

/-- A filterMap over members all mapped to `none` is empty. -/
theorem filterMap_eq_nil_of_forall {α β : Type} (f : α → Option β) (l : List α)
    (h : ∀ x ∈ l, f x = none) : l.filterMap f = [] := by
  induction l with
  | nil => rfl
  | cons a t ih =>
      rw [List.filterMap_cons, h a (List.mem_cons_self a t)]
      exact ih (fun x hx => h x (List.mem_cons_of_mem a hx))

/-- Adding a match for a fresh row key appends a new singleton entry at
the end (Python dict key-insertion order). -/
theorem addMatch_fresh (rm : List (ℕ × List PIIMatch)) (idx : ℕ) (m : PIIMatch)
    (h : idx ∉ rm.map Prod.fst) : addMatch rm idx m = rm ++ [(idx, [m])] := by
  induction rm with
  | nil => rfl
  | cons e rest ih =>
      have hne : e.1 ≠ idx := by
        intro he
        exact h (by rw [List.map_cons, he]; exact List.mem_cons_self _ _)
      show (if e.1 = idx then (e.1, e.2 ++ [m]) :: rest else e :: addMatch rest idx m)
        = (e :: rest) ++ [(idx, [m])]
      rw [if_neg hne, ih (fun hm => h (by rw [List.map_cons]; exact List.mem_cons_of_mem _ hm))]
      rfl

/-- Folding `addMatch` over events with pairwise-distinct fresh keys lists
each event as its own row, in order. -/
theorem foldl_addMatch_nodup (events : List (ℕ × PIIMatch)) :
    ∀ (acc : List (ℕ × List PIIMatch)),
      (∀ p ∈ events, p.1 ∉ acc.map Prod.fst) →
      (events.map Prod.fst).Nodup →
      events.foldl (fun rm p => addMatch rm p.1 p.2) acc
        = acc ++ events.map (fun p => (p.1, [p.2])) := by
  induction events with
  | nil => intro acc _ _; rw [List.map_nil, List.append_nil]; rfl
  | cons a t ih =>
      intro acc hfresh hnodup
      rw [List.foldl_cons]
      rw [addMatch_fresh acc a.1 a.2 (hfresh a (List.mem_cons_self a t))]
      have hnd := hnodup
      rw [List.map_cons, List.nodup_cons] at hnd
      rw [ih (acc ++ [(a.1, [a.2])]) ?_ hnd.2]
      · rw [List.map_cons, List.append_assoc]
        rfl
      · intro p hp
        rw [List.map_append]
        intro hmem
        rcases List.mem_append.mp hmem with hin | hin
        · exact hfresh p (List.mem_cons_of_mem a hp) hin
        · have : p.1 = a.1 := by
            rcases List.mem_singleton.mp (by exact hin) with h
            exact h
          exact hnd.1 (this ▸ List.mem_map_of_mem Prod.fst hp)

/-- `rowMatches` over events with pairwise-distinct keys. -/
theorem rowMatches_nodup (events : List (ℕ × PIIMatch))
    (h : (events.map Prod.fst).Nodup) :
    rowMatches events = events.map (fun p => (p.1, [p.2])) := by
  unfold rowMatches
  rw [foldl_addMatch_nodup events [] (fun p _ hmem => absurd hmem (List.not_mem_nil p.1)) h]
  rfl

/-- Folding `addMatch` over events that all hit row `i` extends the single
row entry in order. -/
theorem foldl_addMatch_const (i : ℕ) (events : List (ℕ × PIIMatch))
    (h : ∀ p ∈ events, p.1 = i) :
    ∀ ms, events.foldl (fun rm p => addMatch rm p.1 p.2) [(i, ms)]
        = [(i, ms ++ events.map Prod.snd)] := by
  induction events with
  | nil => intro ms; rw [List.map_nil, List.append_nil]; rfl
  | cons a t ih =>
      intro ms
      rw [List.foldl_cons]
      have ha : a.1 = i := h a (List.mem_cons_self a t)
      have : addMatch [(i, ms)] a.1 a.2 = [(i, ms ++ [a.2])] := by
        show (if i = a.1 then (i, ms ++ [a.2]) :: [] else (i, ms) :: addMatch [] a.1 a.2)
          = [(i, ms ++ [a.2])]
        rw [if_pos ha.symm]
      rw [this, ih (fun p hp => h p (List.mem_cons_of_mem a hp)) (ms ++ [a.2])]
      rw [List.map_cons, List.append_assoc]
      rfl

/-- `rowMatches` over a nonempty event list all hitting row `i`. -/
theorem rowMatches_const (i : ℕ) (events : List (ℕ × PIIMatch))
    (h : ∀ p ∈ events, p.1 = i) (hne : events ≠ []) :
    rowMatches events = [(i, events.map Prod.snd)] := by
  cases events with
  | nil => exact absurd rfl hne
  | cons a t =>
      unfold rowMatches
      rw [List.foldl_cons]
      have ha : a.1 = i := h a (List.mem_cons_self a t)
      have h0 : addMatch [] a.1 a.2 = [(i, [a.2])] := by
        show [(a.1, [a.2])] = [(i, [a.2])]
        rw [ha]
      rw [h0, foldl_addMatch_const i t (fun p hp => h p (List.mem_cons_of_mem a hp)) [a.2]]
      rw [List.map_cons]
      rfl

/-- The head of a stable priority insertion. -/
theorem head_insertByPriority (m : PIIMatch) (l : List PIIMatch) :
    (insertByPriority m l).head? = some (match l.head? with
      | none => m
      | some b => if b.priority < m.priority then b else m) := by
  cases l with
  | nil => rfl
  | cons b t =>
      by_cases h : b.priority < m.priority
      · show (if b.priority < m.priority then b :: insertByPriority m t
          else m :: b :: t).head? = _
        rw [if_pos h]
        simp [h]
      · show (if b.priority < m.priority then b :: insertByPriority m t
          else m :: b :: t).head? = _
        rw [if_neg h]
        simp [h]

/-- A stable priority sort is empty only for the empty list. -/
theorem sortByPriority_eq_nil {ms : List PIIMatch}
    (h : sortByPriority ms = []) : ms = [] := by
  cases ms with
  | nil => rfl
  | cons a t =>
      exfalso
      have : insertByPriority a (sortByPriority t) = [] := h
      cases hs : sortByPriority t with
      | nil => rw [hs] at this; exact List.noConfusion this
      | cons b t' =>
          rw [hs] at this
          by_cases hb : b.priority < a.priority
          · rw [show insertByPriority a (b :: t')
              = if b.priority < a.priority then b :: insertByPriority a t'
                else a :: b :: t' from rfl, if_pos hb] at this
            exact List.noConfusion this
          · rw [show insertByPriority a (b :: t')
              = if b.priority < a.priority then b :: insertByPriority a t'
                else a :: b :: t' from rfl, if_neg hb] at this
            exact List.noConfusion this

/-- The head of the stable priority sort is a stable min-by priority: it
occurs in the list, no element has a strictly smaller priority, and every
element strictly before its occurrence has a strictly larger priority
(ties are broken by list order, not first-match-wins over all keys). -/
theorem sortByPriority_head_min :
    ∀ (ms : List PIIMatch) (m : PIIMatch),
      (sortByPriority ms).head? = some m →
      ∃ i, ms.get? i = some m
        ∧ (∀ x ∈ ms, m.priority ≤ x.priority)
        ∧ (∀ j x, j < i → ms.get? j = some x → m.priority < x.priority) := by
  intro ms
  induction ms with
  | nil => intro m h; exact absurd h (by simp [sortByPriority])
  | cons a t ih =>
      intro m h
      rw [show sortByPriority (a :: t) = insertByPriority a (sortByPriority t) from rfl,
        head_insertByPriority] at h
      cases hs : (sortByPriority t).head? with
      | none =>
          rw [hs] at h
          have hm : m = a := by
            injection h with h'
            exact h'.symm
          subst hm
          have ht : t = [] := sortByPriority_eq_nil (by
            cases hst : sortByPriority t with
            | nil => rfl
            | cons b u => rw [hst] at hs; exact Option.noConfusion hs)
          subst ht
          exact ⟨0, rfl, by
            intro x hx
            rcases List.mem_singleton.mp hx with rfl
            exact Nat.le_refl _, by
            intro j x hj
            exact absurd hj (Nat.not_lt_zero j)⟩
      | some b =>
          rw [hs] at h
          have h : some (if b.priority < a.priority then b else a) = some m := h
          obtain ⟨i', hget, hmin, hbefore⟩ := ih b hs
          by_cases hb : b.priority < a.priority
          · rw [if_pos hb] at h
            have hm : m = b := by injection h with h'; exact h'.symm
            subst hm
            refine ⟨i' + 1, hget, ?_, ?_⟩
            · intro x hx
              rcases List.mem_cons.mp hx with rfl | hx'
              · exact Nat.le_of_lt hb
              · exact hmin x hx'
            · intro j x hj hgj
              cases j with
              | zero =>
                  have : x = a := by injection hgj with h'; exact h'.symm
                  subst this
                  exact hb
              | succ j' =>
                  exact hbefore j' x (Nat.lt_of_succ_lt_succ hj) hgj
          · rw [if_neg hb] at h
            have hm : m = a := by injection h with h'; exact h'.symm
            subst hm
            refine ⟨0, rfl, ?_, ?_⟩
            · intro x hx
              rcases List.mem_cons.mp hx with rfl | hx'
              · exact Nat.le_refl _
              · exact Nat.le_trans (Nat.le_of_not_lt hb) (hmin x hx')
            · intro j x hj
              exact absurd hj (Nat.not_lt_zero j)

/-- Folding `incrType` over matches of one type counts them. -/
theorem foldl_incrType_const (t : String) :
    ∀ (l : List PIIMatch) (j : ℕ), (∀ m ∈ l, m.type = t) →
      l.foldl (fun tc m => incrType tc m.type) [(t, j)] = [(t, j + l.length)] := by
  intro l
  induction l with
  | nil => intro j _; rfl
  | cons m rest ih =>
      intro j h
      rw [List.foldl_cons]
      have hm : m.type = t := h m (List.mem_cons_self m rest)
      have : incrType [(t, j)] m.type = [(t, j + 1)] := by
        show (if t = m.type then (t, j + 1) :: [] else (t, j) :: incrType [] m.type)
          = [(t, j + 1)]
        rw [if_pos hm.symm]
      rw [this, ih (j + 1) (fun x hx => h x (List.mem_cons_of_mem m hx))]
      rw [List.length_cons, Nat.add_assoc, Nat.add_comm 1 rest.length]

/-- The type counts of a nonempty resolved list of one type. -/
theorem typeCounts_const (l : List PIIMatch) (t : String)
    (h : ∀ m ∈ l, m.type = t) (hne : l ≠ []) :
    typeCounts l = [(t, l.length)] := by
  cases l with
  | nil => exact absurd rfl hne
  | cons m rest =>
      unfold typeCounts
      rw [List.foldl_cons]
      have hm : m.type = t := h m (List.mem_cons_self m rest)
      have h0 : incrType [] m.type = [(t, 1)] := by
        show [(m.type, 1)] = [(t, 1)]
        rw [hm]
      rw [h0, foldl_incrType_const t rest 1 (fun x hx => h x (List.mem_cons_of_mem m hx))]
      rw [List.length_cons, Nat.add_comm 1 rest.length]

/-! ### Claim theorems for the PII engine failure semantics (C2) -/

/-- C2 (amended): the column loop of `PIIDetector.scan` contains no
exception handler, so an exception raised while scanning a single column
propagates and aborts the whole scan: whenever some column scan fails,
`scan` produces no result; only when every column scan succeeds does it
return the complete per-column report list in order. -/
theorem c2_amended (colScan : String → Except String ColReport) (cols : List String) :
    ((∀ c ∈ cols, ∃ r, colScan c = Except.ok r) →
      ∃ rs, scanColumnsE colScan cols = Except.ok rs ∧ rs.map Prod.fst = cols)
    ∧ (∀ c e, c ∈ cols → colScan c = Except.error e →
        ∀ rs, scanColumnsE colScan cols ≠ Except.ok rs) := by
  induction cols with
  | nil =>
      refine ⟨fun _ => ⟨[], rfl, rfl⟩, ?_⟩
      intro c e hc
      exact absurd hc (List.not_mem_nil c)
  | cons a rest ih =>
      constructor
      · intro hok
        obtain ⟨ra, hra⟩ := hok a (List.mem_cons_self a rest)
        obtain ⟨rs, hrs, hmap⟩ := ih.1 (fun c hc => hok c (List.mem_cons_of_mem a hc))
        refine ⟨(a, ra) :: rs, ?_, ?_⟩
        · show (match colScan a with
            | Except.error e => Except.error e
            | Except.ok r =>
                match scanColumnsE colScan rest with
                | Except.error e => Except.error e
                | Except.ok rs => Except.ok ((a, r) :: rs)) = _
          rw [hra, hrs]
        · rw [List.map_cons, hmap]
      · intro c e hc herr rs
        show (match colScan a with
          | Except.error e => Except.error e
          | Except.ok r =>
              match scanColumnsE colScan rest with
              | Except.error e => Except.error e
              | Except.ok rs0 => Except.ok ((a, r) :: rs0)) ≠ Except.ok rs
        rcases List.mem_cons.mp hc with rfl | hmem
        · rw [herr]
          exact fun hcon => Except.noConfusion hcon
        · cases hca : colScan a with
          | error e0 => exact fun hcon => Except.noConfusion hcon
          | ok ra =>
              cases hrest : scanColumnsE colScan rest with
              | error e0 => exact fun hcon => Except.noConfusion hcon
              | ok rs0 => exact absurd hrest (ih.2 c e hmem herr rs0)

/-- Witness for `c2_amended`: two columns, all scans succeeding, yield the
complete report; with the first column raising, no result is produced. -/
theorem c2_amended_witness :
    (∃ rs, scanColumnsE (fun _ => Except.ok ⟨false, 0, [], []⟩) ["a", "b"]
        = Except.ok rs ∧ rs.map Prod.fst = ["a", "b"])
    ∧ scanColumnsE (fun c => if c == "a" then Except.error "boom"
        else Except.ok ⟨false, 0, [], []⟩) ["a", "b"] ≠ Except.ok [] := by
  constructor
  · exact (c2_amended (fun _ => Except.ok ⟨false, 0, [], []⟩) ["a", "b"]).1
      (fun c _ => ⟨⟨false, 0, [], []⟩, rfl⟩)
  · exact (c2_amended (fun c => if c == "a" then Except.error "boom"
      else Except.ok ⟨false, 0, [], []⟩) ["a", "b"]).2 "a" "boom"
      (List.mem_cons_self _ _) rfl []

/-- Counterexample to C2 as stated: the claim says scan never raises and
an exception in one column degrades to "no finding" while the remaining
columns still complete.  In the source there is no try/except around
`_scan_column` (pii.py, lines 97-126), so with the scan of column "a"
raising, the whole scan aborts with that exception and column "b" is never
reported. -/
theorem c2_counterexample :
    scanColumnsE (fun c => if c == "a" then Except.error "boom"
        else Except.ok ⟨false, 0, [], []⟩) ["a", "b"]
      = Except.error "boom" := rfl

/-! ### Claim theorems for the noise guardrail (C8) -/

/-- Characterisation of `_is_noisy`: a value is noisy exactly when its
digit subsequence is longer than 4 and is either all one digit or a
contiguous run of consecutive ascending or descending digits (an infix of
"0123456789" or of "9876543210"). -/
theorem is_noisy_iff (v : String) :
    PIIDetector.is_noisy v = true
      ↔ (4 < (v.data.filter Char.isDigit).length
          ∧ ((v.data.filter Char.isDigit).eraseDups.length = 1
             ∨ (v.data.filter Char.isDigit) <:+: ascendingDigits
             ∨ (v.data.filter Char.isDigit) <:+: descendingDigits)) := by
  show (if (v.data.filter Char.isDigit).isEmpty then false
    else if (v.data.filter Char.isDigit).eraseDups.length == 1
        && decide (4 < (v.data.filter Char.isDigit).length) then true
    else if (decide ((v.data.filter Char.isDigit) <:+: ascendingDigits)
          || decide ((v.data.filter Char.isDigit) <:+: descendingDigits))
        && decide (4 < (v.data.filter Char.isDigit).length) then true
    else false) = true ↔ _
  by_cases hemp : (v.data.filter Char.isDigit).isEmpty
  · rw [if_pos hemp]
    rw [List.isEmpty_iff] at hemp
    rw [hemp]
    simp
  · rw [if_neg hemp]
    by_cases h1 : ((v.data.filter Char.isDigit).eraseDups.length == 1
        && decide (4 < (v.data.filter Char.isDigit).length)) = true
    · rw [if_pos h1]
      rw [Bool.and_eq_true, beq_iff_eq, decide_eq_true_eq] at h1
      simp only [true_iff]
      exact ⟨h1.2, Or.inl h1.1⟩
    · rw [if_neg h1]
      by_cases h2 : ((decide ((v.data.filter Char.isDigit) <:+: ascendingDigits)
            || decide ((v.data.filter Char.isDigit) <:+: descendingDigits))
          && decide (4 < (v.data.filter Char.isDigit).length)) = true
      · rw [if_pos h2]
        rw [Bool.and_eq_true, Bool.or_eq_true, decide_eq_true_eq, decide_eq_true_eq,
          decide_eq_true_eq] at h2
        simp only [true_iff]
        exact ⟨h2.2, Or.inr h2.1⟩
      · rw [if_neg h2]
        simp only [Bool.false_eq_true, false_iff]
        intro hcon
        rcases hcon.2 with hsame | hinf
        · exact h1 (by
            rw [Bool.and_eq_true, beq_iff_eq, decide_eq_true_eq]
            exact ⟨hsame, hcon.1⟩)
        · exact h2 (by
            rw [Bool.and_eq_true, Bool.or_eq_true, decide_eq_true_eq, decide_eq_true_eq,
              decide_eq_true_eq]
            rcases hinf with ha | hd
            · exact ⟨Or.inl ha, hcon.1⟩
            · exact ⟨Or.inr hd, hcon.1⟩)

/-- A value whose digit subsequence is a constant run longer than 4 is
noisy. -/
theorem is_noisy_of_replicate (v : String) (c : Char) (k : ℕ)
    (hd : v.data.filter Char.isDigit = List.replicate k c) (hk : 4 < k) :
    PIIDetector.is_noisy v = true := by
  rw [is_noisy_iff, hd]
  refine ⟨by rw [List.length_replicate]; exact hk, Or.inl ?_⟩
  obtain ⟨k', rfl⟩ : ∃ k', k = k' + 1 := ⟨k - 1, by omega⟩
  rw [eraseDups_replicate_succ]
  rfl

/-- The legacy loop emits nothing when every value is noisy. -/
theorem legacyEvents_eq_nil (legacy : List (String × (String → Bool)))
    (sv : List (ℕ × String)) (is_numeric has_decimals : Bool)
    (h : ∀ p ∈ sv, PIIDetector.is_noisy p.2 = true) :
    legacyEvents legacy sv is_numeric has_decimals = [] := by
  unfold legacyEvents
  apply join_map_eq_nil
  intro pr _
  by_cases hskip : (has_decimals
      && (pr.1 == "phone" || pr.1 == "ssn" || pr.1 == "credit_card")) = true
  · rw [if_pos hskip]
  · rw [if_neg hskip]
    apply filterMap_eq_nil_of_forall
    intro p hp
    by_cases hrx : pr.2 p.2 = true
    · rw [if_pos hrx, if_pos (h p hp)]
    · rw [if_neg hrx]

/-- The registry loop emits nothing when every value is noisy. -/
theorem registryEvents_eq_nil (compiled : List (PIIEntity × (String → Bool)))
    (sv : List (ℕ × String)) (is_numeric has_decimals : Bool)
    (h : ∀ p ∈ sv, PIIDetector.is_noisy p.2 = true) :
    registryEvents compiled sv is_numeric has_decimals = [] := by
  unfold registryEvents
  apply join_map_eq_nil
  intro pr _
  by_cases hskip : (has_decimals
      && (pr.1.category == "identity" || pr.1.category == "financial")) = true
  · rw [if_pos hskip]
  · rw [if_neg hskip]
    apply filterMap_eq_nil_of_forall
    intro p hp
    by_cases hrx : pr.2 p.2 = true
    · rw [if_pos hrx]
      by_cases hcc : (pr.1.type == "credit_card" && !luhn_check p.2) = true
      · rw [if_pos hcc]
      · rw [if_neg hcc, if_pos (h p hp)]
    · rw [if_neg hrx]


/-- When the heuristic condition fails, no heuristic finding is emitted. -/
theorem heuristic_blocked (col_name : String) (sv : List (ℕ × String))
    (row_matches : List (ℕ × List PIIMatch)) (scan_total : ℕ)
    (h : ¬ (8 ≤ avgLen sv ∧ avgLen sv ≤ 20 ∧ uniqueRatio sv scan_total > 4/5)) :
    generic_identifier_heuristic col_name sv row_matches scan_total
      = ([], (row_matches.map Prod.fst).eraseDups.length) := by
  unfold generic_identifier_heuristic
  by_cases hkw : hasKeyword col_name = true
  · rw [if_pos hkw, if_neg h]
  · rw [if_neg hkw]

/-- A column whose non-null values are all one digit-run string longer
than 4 digits yields no candidates, no findings and no detection. -/
theorem scan_column_repeated (legacy : List (String × (String → Bool)))
    (compiled : List (PIIEntity × (String → Bool)))
    (name : String) (cells : List (Option String)) (is_numeric has_decimals : Bool)
    (scan_total : ℕ) (v0 : String) (c : Char) (k : ℕ)
    (hcells : ∀ x ∈ cells, x = none ∨ x = some v0)
    (hd : v0.data.filter Char.isDigit = List.replicate k c)
    (hk : 4 < k) (hst : 2 ≤ scan_total) :
    PIIDetector.scan_column legacy compiled name cells is_numeric has_decimals scan_total
      = ⟨false, 0, [], []⟩ := by
  have hvals : ∀ p ∈ nonNullValues cells, p.2 = v0 := by
    intro p hp
    rcases hcells _ (mem_nonNullFrom hp) with hno | hs
    · exact Option.noConfusion hno
    · injection hs with h'
  unfold PIIDetector.scan_column
  by_cases hemp : (nonNullValues cells).isEmpty
  · rw [if_pos hemp]
  · rw [if_neg hemp]
    have hnoisy : ∀ p ∈ nonNullValues cells, PIIDetector.is_noisy p.2 = true :=
      fun p hp => (hvals p hp) ▸ is_noisy_of_replicate v0 c k hd hk
    rw [legacyEvents_eq_nil legacy _ _ _ hnoisy,
      registryEvents_eq_nil compiled _ _ _ hnoisy]
    have hratio : ¬ (8 ≤ avgLen (nonNullValues cells)
        ∧ avgLen (nonNullValues cells) ≤ 20
        ∧ uniqueRatio (nonNullValues cells) scan_total > 4/5) := by
      intro hcon
      have hrep : (nonNullValues cells).map Prod.snd
          = List.replicate ((nonNullValues cells).map Prod.snd).length v0 := by
        apply List.eq_replicate_of_mem
        intro b hb
        obtain ⟨p, hp, rfl⟩ := List.mem_map.mp hb
        exact hvals p hp
      have hne : nonNullValues cells ≠ [] := by
        intro hnil
        exact hemp (by rw [hnil]; rfl)
      have hlen : 1 ≤ ((nonNullValues cells).map Prod.snd).length := by
        rw [List.length_map]
        exact List.length_pos.mpr hne
      obtain ⟨n', hn'⟩ : ∃ n', ((nonNullValues cells).map Prod.snd).length = n' + 1 :=
        ⟨((nonNullValues cells).map Prod.snd).length - 1, by omega⟩
      have hone : ((nonNullValues cells).map Prod.snd).eraseDups.length = 1 := by
        rw [hrep, hn', eraseDups_replicate_succ]
        rfl
      have hgt := hcon.2.2
      unfold uniqueRatio at hgt
      rw [hone] at hgt
      have h2q : (2 : ℚ) ≤ (scan_total : ℚ) := by exact_mod_cast hst
      have hle : ((1 : ℕ) : ℚ) / (scan_total : ℚ) ≤ 1/2 := by
        rw [Nat.cast_one, div_le_div_iff (by linarith) (by norm_num)]
        linarith
      rw [Nat.cast_one] at hgt
      rw [Nat.cast_one] at hle
      linarith
    show resultReport name scan_total (nonNullValues cells) (rowMatches ([] ++ []))
      = ⟨false, 0, [], []⟩
    rw [show rowMatches ([] ++ []) = [] from rfl]
    unfold resultReport
    rw [show columnFindings0 name scan_total [] = [] from rfl]
    rw [show findingsAndCount name (nonNullValues cells) [] scan_total []
        = generic_identifier_heuristic name (nonNullValues cells) [] scan_total from rfl]
    rw [heuristic_blocked name (nonNullValues cells) [] scan_total hratio]
    rfl

/-- C8 (amended): the noise guardrail rejects a value exactly when its
digit subsequence is longer than 4 digits and is either all-identical or a
contiguous run of consecutive ascending or descending digits (an infix of
"0123456789" or of "9876543210"); consequently a column of repeated
identical digit strings of length > 4 (at least two scanned rows) never
appears in the resolved findings list, regardless of which registry
entity's regex the value also matches. -/
theorem c8_amended :
    (∀ v : String, PIIDetector.is_noisy v = true
      ↔ (4 < (v.data.filter Char.isDigit).length
          ∧ ((v.data.filter Char.isDigit).eraseDups.length = 1
             ∨ (v.data.filter Char.isDigit) <:+: ascendingDigits
             ∨ (v.data.filter Char.isDigit) <:+: descendingDigits)))
    ∧ (∀ (legacy : List (String × (String → Bool)))
        (compiled : List (PIIEntity × (String → Bool)))
        (name : String) (cells : List (Option String))
        (is_numeric has_decimals : Bool) (scan_total : ℕ)
        (v0 : String) (c : Char) (k : ℕ),
        (∀ x ∈ cells, x = none ∨ x = some v0) →
        v0.data.filter Char.isDigit = List.replicate k c →
        4 < k → 2 ≤ scan_total →
        PIIDetector.scan_column legacy compiled name cells is_numeric has_decimals
            scan_total
          = ⟨false, 0, [], []⟩) :=
  ⟨is_noisy_iff,
   fun legacy compiled name cells n d st v0 c k h1 h2 h3 h4 =>
     scan_column_repeated legacy compiled name cells n d st v0 c k h1 h2 h3 h4⟩

/-- Witness for `c8_amended`: the noise characterisation evaluated at
"55555", and a two-row column of "55555" values matched by an arbitrary
registry oracle yielding an empty report. -/
theorem c8_amended_witness :
    (PIIDetector.is_noisy "55555" = true
      ↔ (4 < ("55555".data.filter Char.isDigit).length
          ∧ (("55555".data.filter Char.isDigit).eraseDups.length = 1
             ∨ ("55555".data.filter Char.isDigit) <:+: ascendingDigits
             ∨ ("55555".data.filter Char.isDigit) <:+: descendingDigits)))
    ∧ PIIDetector.scan_column
        [("ssn", fun _ => true)]
        (GLOBAL_PII_REGISTRY.map (fun e => (e, fun _ => true)))
        "code" [some "55555", some "55555"] false false 2
      = ⟨false, 0, [], []⟩ := by
  refine ⟨c8_amended.1 "55555", ?_⟩
  exact c8_amended.2 [("ssn", fun _ => true)]
    (GLOBAL_PII_REGISTRY.map (fun e => (e, fun _ => true)))
    "code" [some "55555", some "55555"] false false 2 "55555" '5' 5
    (by decide) (by decide) (by decide) (by decide)

/-- Counterexample to C8 as stated: the claim says strictly ascending
digit sequences longer than 4 are rejected; "13579" is strictly ascending
with 5 digits, yet `_is_noisy` accepts it, because the source only tests
substring containment in "0123456789"/"9876543210" (consecutive runs). -/
theorem c8_counterexample :
    List.Pairwise (· < ·) ("13579".data.filter Char.isDigit)
    ∧ 4 < ("13579".data.filter Char.isDigit).length
    ∧ PIIDetector.is_noisy "13579" = false :=
  ⟨by decide, by decide, by decide⟩

/-! ### Claim theorems for priority resolution (C4) -/

/-- The pattern names of `DEFAULT_CONFIG.pii_patterns` (core/config.py,
lines 34-39), in insertion order. -/
def LEGACY_PATTERN_NAMES : List String := ["email", "phone", "ssn", "credit_card"]

/-- Every legacy-loop candidate is a priority-99 legacy match for one of
the configured patterns at one of the rows. -/
theorem mem_legacyEvents {legacy : List (String × (String → Bool))}
    {sv : List (ℕ × String)} {n d : Bool} {p : ℕ × PIIMatch}
    (h : p ∈ legacyEvents legacy sv n d) :
    ∃ pr ∈ legacy, ∃ q ∈ sv, p = (q.1, mkLegacyMatch pr.1) := by
  unfold legacyEvents at h
  rw [List.mem_join] at h
  obtain ⟨blk, hblk, hpblk⟩ := h
  obtain ⟨pr, hpr, rfl⟩ := List.mem_map.mp hblk
  refine ⟨pr, hpr, ?_⟩
  by_cases hskip : (d && (pr.1 == "phone" || pr.1 == "ssn" || pr.1 == "credit_card")) = true
  · rw [if_pos hskip] at hpblk
    exact absurd hpblk (List.not_mem_nil p)
  · rw [if_neg hskip] at hpblk
    obtain ⟨q, hq, hfq⟩ := List.mem_filterMap.mp hpblk
    refine ⟨q, hq, ?_⟩
    by_cases h1 : pr.2 q.2 = true
    · rw [if_pos h1] at hfq
      by_cases h2 : PIIDetector.is_noisy q.2 = true
      · rw [if_pos h2] at hfq
        exact Option.noConfusion hfq
      · rw [if_neg h2] at hfq
        by_cases h3 : (n && pr.1 == "phone" && pyIsDigit q.2) = true
        · rw [if_pos h3] at hfq
          exact Option.noConfusion hfq
        · rw [if_neg h3] at hfq
          injection hfq with h'
          exact h'.symm
    · rw [if_neg h1] at hfq
      exact Option.noConfusion hfq

/-- Every registry-loop candidate is the registry match of one of the
compiled entities at one of the rows, and a surviving credit_card entity
candidate passed the Luhn check. -/
theorem mem_registryEvents {compiled : List (PIIEntity × (String → Bool))}
    {sv : List (ℕ × String)} {n d : Bool} {p : ℕ × PIIMatch}
    (h : p ∈ registryEvents compiled sv n d) :
    ∃ pr ∈ compiled, ∃ q ∈ sv, p = (q.1, mkRegistryMatch pr.1 q.2)
      ∧ (pr.1.type = "credit_card" → luhn_check q.2 = true) := by
  unfold registryEvents at h
  rw [List.mem_join] at h
  obtain ⟨blk, hblk, hpblk⟩ := h
  obtain ⟨pr, hpr, rfl⟩ := List.mem_map.mp hblk
  refine ⟨pr, hpr, ?_⟩
  by_cases hskip : (d && (pr.1.category == "identity" || pr.1.category == "financial")) = true
  · rw [if_pos hskip] at hpblk
    exact absurd hpblk (List.not_mem_nil p)
  · rw [if_neg hskip] at hpblk
    obtain ⟨q, hq, hfq⟩ := List.mem_filterMap.mp hpblk
    refine ⟨q, hq, ?_⟩
    by_cases h1 : pr.2 q.2 = true
    · rw [if_pos h1] at hfq
      by_cases hcc : (pr.1.type == "credit_card" && !luhn_check q.2) = true
      · rw [if_pos hcc] at hfq
        exact Option.noConfusion hfq
      · rw [if_neg hcc] at hfq
        by_cases h2 : PIIDetector.is_noisy q.2 = true
        · rw [if_pos h2] at hfq
          exact Option.noConfusion hfq
        · rw [if_neg h2] at hfq
          by_cases h3 : (n && pr.1.type == "passport" && pyIsDigit q.2) = true
          · rw [if_pos h3] at hfq
            exact Option.noConfusion hfq
          · rw [if_neg h3] at hfq
            injection hfq with h'
            refine ⟨h'.symm, ?_⟩
            intro hty
            by_contra hlu
            apply hcc
            rw [Bool.and_eq_true, beq_iff_eq]
            refine ⟨hty, ?_⟩
            cases hb : luhn_check q.2 with
            | true => exact absurd hb hlu
            | false => rfl
    · rw [if_neg h1] at hfq
      exact Option.noConfusion hfq

/-- A registry candidate surviving all guards is emitted (stated here for
non-numeric, non-decimal columns, as in the priority-conflict scenario). -/
theorem mem_registryEvents_intro {compiled : List (PIIEntity × (String → Bool))}
    {sv : List (ℕ × String)} (pr : PIIEntity × (String → Bool)) (q : ℕ × String)
    (hpr : pr ∈ compiled) (hq : q ∈ sv) (hrx : pr.2 q.2 = true)
    (hlu : pr.1.type = "credit_card" → luhn_check q.2 = true)
    (hnoisy : PIIDetector.is_noisy q.2 = false) :
    (q.1, mkRegistryMatch pr.1 q.2) ∈ registryEvents compiled sv false false := by
  unfold registryEvents
  rw [List.mem_join]
  refine ⟨_, List.mem_map_of_mem _ hpr, ?_⟩
  rw [if_neg (by rw [Bool.false_and]; exact Bool.false_ne_true)]
  apply List.mem_filterMap.mpr
  refine ⟨q, hq, ?_⟩
  rw [if_pos hrx]
  have hg1 : (pr.1.type == "credit_card" && !luhn_check q.2) = false := by
    by_cases hcc : pr.1.type = "credit_card"
    · rw [hlu hcc]
      rw [Bool.not_true, Bool.and_false]
    · rw [beq_eq_false_iff_ne.mpr hcc, Bool.false_and]
  rw [if_neg (by rw [hg1]; exact Bool.false_ne_true)]
  rw [if_neg (by rw [hnoisy]; exact Bool.false_ne_true)]
  rw [if_neg (by rw [Bool.false_and, Bool.false_and]; exact Bool.false_ne_true)]

/-- Priority facts of the global registry: every entity has priority at
least 1, and the only priority-1 entity is the credit_card entity. -/
theorem global_priority_facts :
    ∀ e ∈ GLOBAL_PII_REGISTRY, 1 ≤ e.priority
      ∧ (e.priority ≤ 1
          → e = ⟨"credit_card", "financial", "global", "high", "high", 1⟩) := by
  decide

/-- The priority-conflict scenario: with the registry compiled against any
pattern oracle, a single-cell value matching the credit-card pattern,
passing Luhn and not noisy resolves to the credit_card registry match —
the unique priority-1 candidate beats every legacy (99) and identity (>= 2)
candidate. -/
theorem resolve_scenario (lrx rx : String → String → Bool) (v : String)
    (hcc : rx "credit_card" v = true) (hlu : luhn_check v = true)
    (hnoisy : PIIDetector.is_noisy v = false) :
    resolvedMatches (rowMatches
      (legacyEvents (LEGACY_PATTERN_NAMES.map (fun pn => (pn, lrx pn))) [(0, v)] false false
       ++ registryEvents (GLOBAL_PII_REGISTRY.map (fun e => (e, rx e.type)))
          [(0, v)] false false))
      = [⟨"credit_card", 1, "financial", "high", "high", some v⟩] := by
  have hkeys : ∀ p ∈ legacyEvents (LEGACY_PATTERN_NAMES.map (fun pn => (pn, lrx pn)))
      [(0, v)] false false
       ++ registryEvents (GLOBAL_PII_REGISTRY.map (fun e => (e, rx e.type)))
          [(0, v)] false false, p.1 = 0 := by
    intro p hp
    rcases List.mem_append.mp hp with hL | hR
    · obtain ⟨pr, _, q, hq, rfl⟩ := mem_legacyEvents hL
      rcases List.mem_singleton.mp hq with rfl
      rfl
    · obtain ⟨pr, _, q, hq, heq, _⟩ := mem_registryEvents hR
      rcases List.mem_singleton.mp hq with rfl
      rw [heq]
  have hccent : (⟨"credit_card", "financial", "global", "high", "high", 1⟩ : PIIEntity)
      ∈ GLOBAL_PII_REGISTRY := by decide
  have hccpair : ((⟨"credit_card", "financial", "global", "high", "high", 1⟩ : PIIEntity),
      rx "credit_card")
      ∈ GLOBAL_PII_REGISTRY.map (fun e => (e, rx e.type)) :=
    List.mem_map_of_mem _ hccent
  have hcc_in : ((0 : ℕ),
      mkRegistryMatch ⟨"credit_card", "financial", "global", "high", "high", 1⟩ v)
      ∈ registryEvents (GLOBAL_PII_REGISTRY.map (fun e => (e, rx e.type)))
        [(0, v)] false false :=
    mem_registryEvents_intro _ ((0 : ℕ), v) hccpair (List.mem_singleton.mpr rfl)
      hcc (fun _ => hlu) hnoisy
  have hev_in := List.mem_append_right
    (legacyEvents (LEGACY_PATTERN_NAMES.map (fun pn => (pn, lrx pn))) [(0, v)] false false)
    hcc_in
  have hev_ne : legacyEvents (LEGACY_PATTERN_NAMES.map (fun pn => (pn, lrx pn)))
      [(0, v)] false false
       ++ registryEvents (GLOBAL_PII_REGISTRY.map (fun e => (e, rx e.type)))
          [(0, v)] false false ≠ [] := by
    intro hnil
    rw [hnil] at hev_in
    exact List.not_mem_nil _ hev_in
  rw [rowMatches_const 0 _ hkeys hev_ne]
  unfold resolvedMatches
  have hms_ne : (legacyEvents (LEGACY_PATTERN_NAMES.map (fun pn => (pn, lrx pn)))
      [(0, v)] false false
       ++ registryEvents (GLOBAL_PII_REGISTRY.map (fun e => (e, rx e.type)))
          [(0, v)] false false).map Prod.snd ≠ [] := by
    intro h0
    exact hev_ne (List.map_eq_nil.mp h0)
  cases hs : sortByPriority ((legacyEvents (LEGACY_PATTERN_NAMES.map (fun pn => (pn, lrx pn)))
      [(0, v)] false false
       ++ registryEvents (GLOBAL_PII_REGISTRY.map (fun e => (e, rx e.type)))
          [(0, v)] false false).map Prod.snd) with
  | nil => exact absurd (sortByPriority_eq_nil hs) hms_ne
  | cons m t =>
      have hhd : (sortByPriority ((legacyEvents
          (LEGACY_PATTERN_NAMES.map (fun pn => (pn, lrx pn))) [(0, v)] false false
          ++ registryEvents (GLOBAL_PII_REGISTRY.map (fun e => (e, rx e.type)))
            [(0, v)] false false).map Prod.snd)).head? = some m := by
        rw [hs]
        rfl
      rw [List.filterMap_cons]
      rw [hhd]
      show m :: List.filterMap _ [] = _
      rw [List.filterMap_nil]
      obtain ⟨i, hget, hmin, _⟩ := sortByPriority_head_min _ m hhd
      have hm_mem := List.get?_mem hget
      have hle1 : m.priority ≤ 1 :=
        hmin (mkRegistryMatch ⟨"credit_card", "financial", "global", "high", "high", 1⟩ v)
          (List.mem_map_of_mem Prod.snd hev_in)
      obtain ⟨pe, hpe, rfl⟩ := List.mem_map.mp hm_mem
      rcases List.mem_append.mp hpe with hL | hR
      · obtain ⟨pr, _, q, _, heq⟩ := mem_legacyEvents hL
        rw [heq] at hle1
        exact absurd hle1 (by norm_num [mkLegacyMatch])
      · obtain ⟨pr, hpr, q, hq, heq, _⟩ := mem_registryEvents hR
        obtain ⟨e, he, rfl⟩ := List.mem_map.mp hpr
        rcases List.mem_singleton.mp hq with rfl
        rw [heq] at hle1 ⊢
        have he1 : e = ⟨"credit_card", "financial", "global", "high", "high", 1⟩ :=
          (global_priority_facts e he).2 hle1
        rw [he1]
        rfl

/-- C4 (amended): for every row with surviving candidates, the resolved
finding is a stable min-by priority (the candidate with the numerically
lowest priority, ties broken by candidate insertion order — configured
legacy patterns first, then registry order); a REGISTRY credit_card
candidate must pass the Luhn check to survive (legacy configured
"credit_card" candidates are not Luhn-checked); and a cell value matching
the registry credit-card pattern with a valid Luhn checksum (also matching
the 12-digit aadhaar identity pattern) resolves to the credit-card
entity's type. -/
theorem c4_amended :
    (∀ (ms : List PIIMatch) (m : PIIMatch),
      (sortByPriority ms).head? = some m →
      ∃ i, ms.get? i = some m
        ∧ (∀ x ∈ ms, m.priority ≤ x.priority)
        ∧ (∀ j x, j < i → ms.get? j = some x → m.priority < x.priority))
    ∧ (∀ (rx : String → String → Bool) (v : String) (n d : Bool),
        luhn_check v = false →
        ∀ p ∈ registryEvents (GLOBAL_PII_REGISTRY.map (fun e => (e, rx e.type)))
            [(0, v)] n d, p.2.type ≠ "credit_card")
    ∧ (∀ (lrx rx : String → String → Bool) (v : String),
        rx "credit_card" v = true → rx "aadhaar_india" v = true →
        luhn_check v = true → PIIDetector.is_noisy v = false →
        resolvedMatches (rowMatches
          (legacyEvents (LEGACY_PATTERN_NAMES.map (fun pn => (pn, lrx pn)))
              [(0, v)] false false
           ++ registryEvents (GLOBAL_PII_REGISTRY.map (fun e => (e, rx e.type)))
              [(0, v)] false false))
          = [⟨"credit_card", 1, "financial", "high", "high", some v⟩]) := by
  refine ⟨sortByPriority_head_min, ?_, ?_⟩
  · intro rx v n d hlu p hp hty
    obtain ⟨pr, hpr, q, hq, heq, hluc⟩ := mem_registryEvents hp
    obtain ⟨e, _, rfl⟩ := List.mem_map.mp hpr
    rcases List.mem_singleton.mp hq with rfl
    have hety : e.type = "credit_card" := by
      rw [heq] at hty
      exact hty
    have := hluc hety
    rw [hlu] at this
    exact Bool.noConfusion this
  · intro lrx rx v hcc _ hlu hnoisy
    exact resolve_scenario lrx rx v hcc hlu hnoisy

/-- Witness for `c4_amended`: the stable min-by applied to a concrete
two-candidate list; the Luhn requirement at the non-Luhn string
"9999-9999-9999-9991"; and the documented conflict cell
"4532 0151 1283 0366" (valid Luhn, matches the credit-card and aadhaar
patterns) resolving to credit_card. -/
theorem c4_amended_witness :
    (∃ i, [⟨"a", 3, "x", "r", "c", none⟩,
        (⟨"b", 2, "x", "r", "c", none⟩ : PIIMatch)].get? i
          = some ⟨"b", 2, "x", "r", "c", none⟩
      ∧ (∀ x ∈ [⟨"a", 3, "x", "r", "c", none⟩,
          (⟨"b", 2, "x", "r", "c", none⟩ : PIIMatch)],
          (⟨"b", 2, "x", "r", "c", none⟩ : PIIMatch).priority ≤ x.priority)
      ∧ (∀ j x, j < i → [⟨"a", 3, "x", "r", "c", none⟩,
          (⟨"b", 2, "x", "r", "c", none⟩ : PIIMatch)].get? j = some x →
          (⟨"b", 2, "x", "r", "c", none⟩ : PIIMatch).priority < x.priority))
    ∧ (∀ p ∈ registryEvents (GLOBAL_PII_REGISTRY.map (fun e =>
          (e, fun s => (e.type == "credit_card") && (s == "9999-9999-9999-9991"))))
          [(0, "9999-9999-9999-9991")] false false, p.2.type ≠ "credit_card")
    ∧ resolvedMatches (rowMatches
        (legacyEvents (LEGACY_PATTERN_NAMES.map (fun pn => (pn, fun s =>
            (pn == "credit_card") && (s == "4532 0151 1283 0366"))))
            [(0, "4532 0151 1283 0366")] false false
         ++ registryEvents (GLOBAL_PII_REGISTRY.map (fun e => (e, fun s =>
            ((e.type == "credit_card") || (e.type == "aadhaar_india"))
              && (s == "4532 0151 1283 0366"))))
            [(0, "4532 0151 1283 0366")] false false))
        = [⟨"credit_card", 1, "financial", "high", "high",
            some "4532 0151 1283 0366"⟩] := by
  refine ⟨?_, ?_, ?_⟩
  · exact c4_amended.1 [⟨"a", 3, "x", "r", "c", none⟩, ⟨"b", 2, "x", "r", "c", none⟩]
      ⟨"b", 2, "x", "r", "c", none⟩ (by decide)
  · exact c4_amended.2.1 (fun t s => (t == "credit_card") && (s == "9999-9999-9999-9991"))
      "9999-9999-9999-9991" false false (by decide)
  · exact c4_amended.2.2
      (fun pn s => (pn == "credit_card") && (s == "4532 0151 1283 0366"))
      (fun t s => ((t == "credit_card") || (t == "aadhaar_india"))
        && (s == "4532 0151 1283 0366"))
      "4532 0151 1283 0366" (by decide) (by decide) (by decide) (by decide)

/-- Counterexample to C4 as stated: the claim requires every credit_card
candidate to pass the Luhn check to survive, but candidates produced by
the legacy configured "credit_card" pattern are not Luhn-checked:
"9999-9999-9999-9991" fails Luhn, yet the row's surviving candidate list
contains a credit_card candidate (priority 99, via the legacy loop). -/
theorem c4_counterexample :
    luhn_check "9999-9999-9999-9991" = false
    ∧ rowMatches
        (legacyEvents (LEGACY_PATTERN_NAMES.map (fun pn => (pn, fun s =>
            ((pn == "credit_card") || (pn == "phone"))
              && (s == "9999-9999-9999-9991"))))
            [(0, "9999-9999-9999-9991")] false false
         ++ registryEvents (GLOBAL_PII_REGISTRY.map (fun e => (e, fun s =>
            (e.type == "credit_card") && (s == "9999-9999-9999-9991"))))
            [(0, "9999-9999-9999-9991")] false false)
      = [(0, [⟨"phone", 99, "legacy", "medium", "high", none⟩,
              ⟨"credit_card", 99, "legacy", "low", "high", none⟩])] :=
  ⟨by decide, by decide⟩

/-! ### Claim theorems for the risk bucket bound (C10) -/

/-- `addRisk` leaves the collected reports untouched. -/
theorem addRisk_reports (acc : ScanAcc) (f : List Finding) :
    (addRisk acc f).reports = acc.reports := by
  simp only [addRisk]
  split_ifs <;> rfl

/-- `addRisk` grows the three risk buckets by at most one in total. -/
theorem addRisk_sum (acc : ScanAcc) (f : List Finding) :
    (addRisk acc f).high + (addRisk acc f).medium + (addRisk acc f).low
      ≤ acc.high + acc.medium + acc.low + 1 := by
  simp only [addRisk]
  split_ifs <;> (try dsimp only) <;> omega

/-- The risk bucket counters of the column loop never exceed the number
of collected column reports. -/
theorem scanCols_bucket_bound (legacy : List (String × (String → Bool)))
    (compiled : List (PIIEntity × (String → Bool))) (scan_total : ℕ)
    (cols : List Column) :
    (scanCols legacy compiled scan_total cols).high
      + (scanCols legacy compiled scan_total cols).medium
      + (scanCols legacy compiled scan_total cols).low
      ≤ (scanCols legacy compiled scan_total cols).reports.length := by
  induction cols with
  | nil => simp [scanCols]
  | cons c rest ih =>
      simp only [scanCols]
      by_cases hskip : skipColumn c = true
      · rw [if_pos hskip]
        exact ih
      · rw [if_neg hskip]
        by_cases hdet : (PIIDetector.scan_column legacy compiled c.name c.cells
            c.is_numeric c.has_decimals scan_total).pii_detected = true
        · rw [if_pos hdet]
          dsimp only
          rw [List.length_cons, addRisk_reports]
          have h1 := addRisk_sum (scanCols legacy compiled scan_total rest)
            (PIIDetector.scan_column legacy compiled c.name c.cells
              c.is_numeric c.has_decimals scan_total).pii_findings
          omega
        · rw [if_neg hdet]
          exact ih

/-- C10: in every result of `PIIDetector.scan` the summary satisfies
high_risk_columns + medium_risk_columns + low_risk_columns <=
total_columns_with_pii, and the inequality can be strict: a single-column
dataset whose only per-type finding is rejected by the entropy guard
(repeated low-entropy value, confidence below high) is reported with
pii_detected = true and count = 1 yet bumps no risk bucket, so the buckets
sum to 0 while total_columns_with_pii = 1. -/
theorem c10_risk_bucket_bound :
    (∀ (legacy : List (String × (String → Bool)))
       (compiled : List (PIIEntity × (String → Bool)))
       (ds : PIIDataset) (st : ℕ),
       (PIIDetector.scan legacy compiled ds st).summary.high_risk_columns
         + (PIIDetector.scan legacy compiled ds st).summary.medium_risk_columns
         + (PIIDetector.scan legacy compiled ds st).summary.low_risk_columns
         ≤ (PIIDetector.scan legacy compiled ds st).summary.total_columns_with_pii)
    ∧ PIIDetector.scan []
        (GLOBAL_PII_REGISTRY.map (fun e =>
          (e, fun s => (e.type == "passport") && (s == "AAAAAA"))))
        ⟨[⟨"serial", [some "AAAAAA"], false, false, false, false⟩], 1⟩ 100000
      = ⟨[("serial", ⟨true, 1, [("passport", 1)], []⟩)],
         ⟨0, 0, 0, 1, 1, false, 1⟩⟩ := by
  constructor
  · intro legacy compiled ds st
    unfold PIIDetector.scan
    by_cases hgt : ds.nrows > st
    · rw [if_pos hgt]
      exact scanCols_bucket_bound legacy compiled st
        (ds.columns.map (Column.takeRows st))
    · rw [if_neg hgt]
      exact scanCols_bucket_bound legacy compiled ds.nrows ds.columns
  · with_unfolding_all rfl

/-! ### Claim theorems for the sampling semantics (C6) -/

/-- `List.elem` is false for a non-member. -/
theorem elem_false_of_not_mem {α : Type} [BEq α] [LawfulBEq α] {x : α} :
    ∀ {l : List α}, x ∉ l → List.elem x l = false := by
  intro l
  induction l with
  | nil => intro _; rfl
  | cons a t ih =>
      intro h
      show List.elem x (a :: t) = false
      unfold List.elem
      cases hxa : x == a with
      | true =>
          exfalso
          exact h (by rw [eq_of_beq hxa]; exact List.mem_cons_self a t)
      | false =>
          show List.elem x t = false
          exact ih (fun hm => h (List.mem_cons_of_mem a hm))

/-- The `eraseDups` loop appends a duplicate-free input to the collected
accumulator. -/
theorem eraseDups_loop_of_nodup {α : Type} [BEq α] [LawfulBEq α] :
    ∀ (l : List α), l.Nodup → ∀ (acc : List α), (∀ x ∈ l, x ∉ acc) →
      List.eraseDups.loop l acc = acc.reverse ++ l := by
  intro l
  induction l with
  | nil =>
      intro _ acc _
      rw [List.append_nil]
      rfl
  | cons a t ih =>
      intro hnd acc hfresh
      show List.eraseDups.loop (a :: t) acc = acc.reverse ++ a :: t
      unfold List.eraseDups.loop
      rw [elem_false_of_not_mem (hfresh a (List.mem_cons_self a t))]
      show List.eraseDups.loop t (a :: acc) = acc.reverse ++ a :: t
      rw [ih (List.Nodup.of_cons hnd) (a :: acc) (by
        intro x hx hmem
        rcases List.mem_cons.mp hmem with heq | h2
        · exact (List.nodup_cons.mp hnd).1 (heq ▸ hx)
        · exact hfresh x (List.mem_cons_of_mem a hx) h2)]
      rw [List.reverse_cons, List.append_assoc]
      rfl

/-- `eraseDups` of a duplicate-free list is the identity. -/
theorem eraseDups_eq_self {α : Type} [BEq α] [LawfulBEq α] (l : List α)
    (h : l.Nodup) : l.eraseDups = l := by
  show List.eraseDups.loop l [] = l
  rw [eraseDups_loop_of_nodup l h [] (fun x _ hx => List.not_mem_nil x hx)]
  rfl

/-- `filterMap id` of an all-`some` constant column. -/
theorem filterMap_id_replicate (v : String) : ∀ k : ℕ,
    (List.replicate k (some v)).filterMap id = List.replicate k v
  | 0 => rfl
  | k + 1 => by
      rw [List.replicate_succ, List.filterMap_cons]
      show v :: (List.replicate k (some v)).filterMap id = _
      rw [filterMap_id_replicate v k, List.replicate_succ]

/-- `countP` of a constant list whose value fails the predicate. -/
theorem countP_replicate_false {α : Type} (p : α → Bool) (v : α)
    (h : p v = false) : ∀ k : ℕ, (List.replicate k v).countP p = 0
  | 0 => rfl
  | k + 1 => by
      rw [List.replicate_succ, List.countP_cons, h,
        if_neg (show ¬ (false = true) from Bool.false_ne_true),
        countP_replicate_false p v h k]

/-- A constant non-date column is not skipped by the ISO-date heuristic. -/
theorem dateShapedSkip_replicate (v : String) (st : ℕ) (hst : 0 < st)
    (hdate : isIsoDateShaped v = false) :
    dateShapedSkip (List.replicate st (some v)) = false := by
  simp only [dateShapedSkip]
  rw [filterMap_id_replicate, List.take_replicate]
  rw [countP_replicate_false _ v hdate (min 20 st)]
  have hne : (List.replicate (min 20 st) v).isEmpty = false := by
    have h1 : 0 < min 20 st := by omega
    cases hmm : min 20 st with
    | zero => omega
    | succ k => rw [List.replicate_succ]; rfl
  rw [hne, if_neg (show ¬ (false = true) from Bool.false_ne_true)]
  rw [List.length_replicate]
  apply decide_eq_false
  rw [Nat.cast_zero, zero_div]
  norm_num

/-- Every finding emitted by the per-type findings loop computes its
`match_ratio` as the rounded quotient of its own match count by the
`scan_total` it was given. -/
theorem mem_mkFindings_ratio {col : String} {st : ℕ} {resolved : List PIIMatch}
    {tc : List (String × ℕ)} {f : Finding}
    (hf : f ∈ mkFindings col st resolved tc) :
    f.match_ratio = roundTo 4 ((f.matchCount : ℚ) / (st : ℚ)) := by
  unfold mkFindings at hf
  obtain ⟨p, hp, he⟩ := List.mem_filterMap.mp hf
  cases hfind : resolved.find? (fun m => m.type == p.1) with
  | none =>
      simp only [hfind] at he
      exact Option.noConfusion he
  | some sm =>
      simp only [hfind] at he
      split_ifs at he <;>
        first
          | exact Option.noConfusion he
          | (injection he with h
             rw [← h])

/-- Every finding of an assembled column report (per-type or heuristic)
computes its ratio against the given `scan_total`. -/
theorem resultReport_ratio (nm : String) (st : ℕ) (sv : List (ℕ × String))
    (rm : List (ℕ × List PIIMatch)) (f : Finding)
    (hf : f ∈ (resultReport nm st sv rm).pii_findings) :
    f.match_ratio = roundTo 4 ((f.matchCount : ℚ) / (st : ℚ)) := by
  unfold resultReport at hf
  dsimp only at hf
  unfold findingsAndCount at hf
  by_cases h0 : (columnFindings0 nm st rm).isEmpty = true
  · rw [if_pos h0] at hf
    unfold generic_identifier_heuristic at hf
    by_cases hkw : hasKeyword nm = true
    · rw [if_pos hkw] at hf
      by_cases hcond : (8 ≤ avgLen sv ∧ avgLen sv ≤ 20 ∧ uniqueRatio sv st > 4/5)
      · rw [if_pos hcond] at hf
        dsimp only at hf
        rw [List.mem_singleton] at hf
        subst hf
        rfl
      · rw [if_neg hcond] at hf
        exact absurd hf (List.not_mem_nil f)
    · rw [if_neg hkw] at hf
      exact absurd hf (List.not_mem_nil f)
  · rw [if_neg h0] at hf
    exact mem_mkFindings_ratio hf

/-- Lift of `resultReport_ratio` through `_scan_column`. -/
theorem scan_column_ratio (legacy : List (String × (String → Bool)))
    (compiled : List (PIIEntity × (String → Bool))) (nm : String)
    (cells : List (Option String)) (num dec : Bool) (st : ℕ) (f : Finding)
    (hf : f ∈ (PIIDetector.scan_column legacy compiled nm cells num dec
      st).pii_findings) :
    f.match_ratio = roundTo 4 ((f.matchCount : ℚ) / (st : ℚ)) := by
  unfold PIIDetector.scan_column at hf
  by_cases hemp : (nonNullValues cells).isEmpty = true
  · rw [if_pos hemp] at hf
    exact absurd hf (List.not_mem_nil f)
  · rw [if_neg hemp] at hf
    exact resultReport_ratio nm st (nonNullValues cells) _ f hf

/-- Lift of the ratio property through the column loop of `scan`. -/
theorem scanCols_ratio (legacy : List (String × (String → Bool)))
    (compiled : List (PIIEntity × (String → Bool))) (st : ℕ)
    (cols : List Column) (nm : String) (rep : ColReport) (f : Finding)
    (hmem : (nm, rep) ∈ (scanCols legacy compiled st cols).reports)
    (hf : f ∈ rep.pii_findings) :
    f.match_ratio = roundTo 4 ((f.matchCount : ℚ) / (st : ℚ)) := by
  induction cols with
  | nil => exact absurd hmem (List.not_mem_nil _)
  | cons c rest ih =>
      simp only [scanCols] at hmem
      by_cases hskip : skipColumn c = true
      · rw [if_pos hskip] at hmem
        exact ih hmem
      · rw [if_neg hskip] at hmem
        by_cases hdet : (PIIDetector.scan_column legacy compiled c.name c.cells
            c.is_numeric c.has_decimals st).pii_detected = true
        · rw [if_pos hdet] at hmem
          dsimp only at hmem
          rw [addRisk_reports] at hmem
          rcases List.mem_cons.mp hmem with heq | hmem2
          · have hrep : rep = PIIDetector.scan_column legacy compiled c.name
                c.cells c.is_numeric c.has_decimals st := congrArg Prod.snd heq
            exact scan_column_ratio legacy compiled c.name c.cells c.is_numeric
              c.has_decimals st f (hrep ▸ hf)
          · exact ih hmem2
        · rw [if_neg hdet] at hmem
          exact ih hmem

/-- Rounding 1 to four decimals gives 1. -/
theorem roundTo_four_one : roundTo 4 (1 : ℚ) = 1 := by
  unfold roundTo
  have h : ((1 : ℚ) * 10 ^ 4) = ((10000 : ℕ) : ℚ) := by norm_num
  rw [h, round_natCast]
  norm_num

/-- `join` of a single block. -/
theorem join_singleton {α : Type} (l : List α) : List.join [l] = l := by
  show l ++ List.join [] = l
  rw [show List.join ([] : List (List α)) = [] from rfl]
  exact List.append_nil l

/-- The report of a column whose scanned values are the constant `v` on
the rows `0..st-1`, scanned with a single configured "email" pattern that
matches `v`, no registry, and `scan_total = st`: every row yields the one
legacy email candidate, the per-type finding survives with ratio
`st/st = 1`, and the affected-row count is `st`. -/
theorem resultReport_email_const (rx : String → Bool) (name v : String)
    (st : ℕ) (sv : List (ℕ × String))
    (hsv : sv = (List.range st).map (fun j => (j, v)))
    (hst : 0 < st) (hrx : rx v = true)
    (hnoisy : PIIDetector.is_noisy v = false) :
    resultReport name st sv (rowMatches
        (legacyEvents [("email", rx)] sv false false
          ++ registryEvents [] sv false false))
      = ⟨true, st, [("email", st)],
         [⟨name, "email", "legacy", "medium", "high", st, 1⟩]⟩ := by
  have hmemv : ∀ p ∈ sv, p.2 = v := by
    rw [hsv]
    intro p hp
    obtain ⟨j, _, rfl⟩ := List.mem_map.mp hp
    rfl
  have hlen : sv.length = st := by
    rw [hsv, List.length_map, List.length_range]
  have hkeys : sv.map Prod.fst = List.range st := by
    rw [hsv, List.map_map]
    rw [show (Prod.fst ∘ fun j : ℕ => (j, v)) = id from rfl, List.map_id]
  have hlegacy : legacyEvents [("email", rx)] sv false false
      = sv.map (fun p =>
          (p.1, (⟨"email", 99, "legacy", "medium", "high", none⟩ : PIIMatch))) := by
    unfold legacyEvents
    rw [List.map_cons, List.map_nil, join_singleton]
    dsimp only
    rw [if_neg (show ¬ ((false && ("email" == "phone" || "email" == "ssn"
        || "email" == "credit_card")) = true) from fun h => Bool.noConfusion h)]
    apply filterMap_eq_map_of_forall
    intro p hp
    dsimp only
    rw [hmemv p hp, if_pos hrx]
    rw [if_neg (show ¬ PIIDetector.is_noisy v = true from by
      rw [hnoisy]; exact Bool.false_ne_true)]
    rw [if_neg (show ¬ ((false && ("email" == "phone") && pyIsDigit v) = true)
      from fun h => Bool.noConfusion h)]
    rfl
  have hkeys2 : (sv.map (fun p : ℕ × String =>
        (p.1, (⟨"email", 99, "legacy", "medium", "high", none⟩ : PIIMatch)))).map
          Prod.fst = List.range st := by
    rw [List.map_map]
    rw [show (Prod.fst ∘ fun p : ℕ × String =>
        (p.1, (⟨"email", 99, "legacy", "medium", "high", none⟩ : PIIMatch)))
      = Prod.fst from rfl]
    rw [hkeys]
  have hrm : rowMatches (sv.map (fun p : ℕ × String =>
        (p.1, (⟨"email", 99, "legacy", "medium", "high", none⟩ : PIIMatch))))
      = sv.map (fun p : ℕ × String =>
          (p.1, [(⟨"email", 99, "legacy", "medium", "high", none⟩ : PIIMatch)])) := by
    rw [rowMatches_nodup _ (by rw [hkeys2]; exact List.nodup_range st), List.map_map]
    rfl
  have hres : resolvedMatches (sv.map (fun p : ℕ × String =>
        (p.1, [(⟨"email", 99, "legacy", "medium", "high", none⟩ : PIIMatch)])))
      = sv.map (fun _ : ℕ × String =>
          (⟨"email", 99, "legacy", "medium", "high", none⟩ : PIIMatch)) := by
    unfold resolvedMatches
    rw [filterMap_eq_map_of_forall _
      (fun _ : ℕ × List PIIMatch =>
        (⟨"email", 99, "legacy", "medium", "high", none⟩ : PIIMatch)) _
      (fun x hx => by
        obtain ⟨q, hq, rfl⟩ := List.mem_map.mp hx
        rfl), List.map_map]
    rfl
  have hresall : ∀ m ∈ sv.map (fun _ : ℕ × String =>
        (⟨"email", 99, "legacy", "medium", "high", none⟩ : PIIMatch)),
      m = (⟨"email", 99, "legacy", "medium", "high", none⟩ : PIIMatch) := by
    intro m hm
    obtain ⟨q, hq, rfl⟩ := List.mem_map.mp hm
    rfl
  have hreslen : (sv.map (fun _ : ℕ × String =>
      (⟨"email", 99, "legacy", "medium", "high", none⟩ : PIIMatch))).length = st := by
    rw [List.length_map, hlen]
  have hresne : sv.map (fun _ : ℕ × String =>
      (⟨"email", 99, "legacy", "medium", "high", none⟩ : PIIMatch)) ≠ [] := by
    intro hnil
    have h0 : st = 0 := by rw [← hreslen, hnil]; rfl
    omega
  have htc : typeCounts (sv.map (fun _ : ℕ × String =>
      (⟨"email", 99, "legacy", "medium", "high", none⟩ : PIIMatch)))
      = [("email", st)] := by
    rw [typeCounts_const _ "email"
      (fun m hm => by rw [hresall m hm]) hresne, hreslen]
  have hfind : (sv.map (fun _ : ℕ × String =>
      (⟨"email", 99, "legacy", "medium", "high", none⟩ : PIIMatch))).find?
        (fun m => m.type == "email")
      = some (⟨"email", 99, "legacy", "medium", "high", none⟩ : PIIMatch) := by
    cases hcase : sv.map (fun _ : ℕ × String =>
        (⟨"email", 99, "legacy", "medium", "high", none⟩ : PIIMatch)) with
    | nil => exact absurd hcase hresne
    | cons a t =>
        have ha : a = (⟨"email", 99, "legacy", "medium", "high", none⟩ : PIIMatch) :=
          hresall a (by rw [hcase]; exact List.mem_cons_self a t)
        rw [List.find?_cons_of_pos _ (by rw [ha]; try rfl), ha]
  have hstq : ((st : ℕ) : ℚ) ≠ 0 := Nat.cast_ne_zero.mpr (by omega)
  have hdiv : ((st : ℕ) : ℚ) / ((st : ℕ) : ℚ) = 1 := div_self hstq
  have hcf : columnFindings0 name st (sv.map (fun p : ℕ × String =>
        (p.1, [(⟨"email", 99, "legacy", "medium", "high", none⟩ : PIIMatch)])))
      = [⟨name, "email", "legacy", "medium", "high", st, 1⟩] := by
    unfold columnFindings0
    rw [hres, htc]
    unfold mkFindings
    rw [List.filterMap_cons, List.filterMap_nil]
    dsimp only
    rw [hfind]
    dsimp only
    rw [if_neg (show ¬ (((st : ℕ) : ℚ) / ((st : ℕ) : ℚ) < 1 / 100
        ∧ (⟨"email", 99, "legacy", "medium", "high", none⟩ : PIIMatch).confidence
            ≠ "high") from by
      intro hcon
      rw [hdiv] at hcon
      exact absurd hcon.1 (by norm_num))]
    rw [if_neg (show ¬ (false = true) from Bool.false_ne_true)]
    rw [hdiv, roundTo_four_one]
  have hkeys3 : (sv.map (fun p : ℕ × String =>
        (p.1, [(⟨"email", 99, "legacy", "medium", "high", none⟩ : PIIMatch)]))).map
          Prod.fst = List.range st := by
    rw [List.map_map]
    rw [show (Prod.fst ∘ fun p : ℕ × String =>
        (p.1, [(⟨"email", 99, "legacy", "medium", "high", none⟩ : PIIMatch)]))
      = Prod.fst from rfl]
    rw [hkeys]
  have hfc : findingsAndCount name sv (sv.map (fun p : ℕ × String =>
        (p.1, [(⟨"email", 99, "legacy", "medium", "high", none⟩ : PIIMatch)]))) st
        (columnFindings0 name st (sv.map (fun p : ℕ × String =>
          (p.1, [(⟨"email", 99, "legacy", "medium", "high", none⟩ : PIIMatch)]))))
      = ([⟨name, "email", "legacy", "medium", "high", st, 1⟩], st) := by
    rw [hcf]
    unfold findingsAndCount
    rw [if_neg (show ¬ (([(⟨name, "email", "legacy", "medium", "high", st, 1⟩ :
        Finding)]).isEmpty = true) from fun h => Bool.noConfusion h)]
    rw [hkeys3, eraseDups_eq_self _ (List.nodup_range st), List.length_range]
  rw [show registryEvents [] sv false false = [] from rfl, List.append_nil]
  rw [hlegacy, hrm]
  unfold resultReport
  rw [hfc, hres, htc]
  dsimp only
  rw [decide_eq_true hst]
  rfl

/-- A constant all-`some v` column scanned against a single matching
"email" pattern yields the full report with `scan_total = st`. -/
theorem scan_column_email_replicate (rx : String → Bool) (name v : String)
    (st : ℕ) (hst : 0 < st) (hrx : rx v = true)
    (hnoisy : PIIDetector.is_noisy v = false) :
    PIIDetector.scan_column [("email", rx)] [] name (List.replicate st (some v))
        false false st
      = ⟨true, st, [("email", st)],
         [⟨name, "email", "legacy", "medium", "high", st, 1⟩]⟩ := by
  have hsv : nonNullValues (List.replicate st (some v))
      = (List.range st).map (fun j => (j, v)) := by
    unfold nonNullValues
    rw [nonNullFrom_replicate]
    apply List.map_congr_left
    intro j _
    rw [Nat.zero_add]
  have hne : (nonNullValues (List.replicate st (some v))).isEmpty = false := by
    cases hcase : (nonNullValues (List.replicate st (some v))).isEmpty with
    | false => rfl
    | true =>
        exfalso
        have hnil : nonNullValues (List.replicate st (some v)) = [] := by
          cases hl : nonNullValues (List.replicate st (some v)) with
          | nil => rfl
          | cons a t => rw [hl] at hcase; exact Bool.noConfusion hcase
        have hlen := congrArg List.length hnil
        rw [hsv] at hlen
        rw [List.length_map, List.length_range] at hlen
        simp only [List.length_nil] at hlen
        omega
  unfold PIIDetector.scan_column
  rw [hne, if_neg (show ¬ (false = true) from Bool.false_ne_true)]
  exact resultReport_email_const rx name v st _ hsv hst hrx hnoisy

/-- The full sampled scan of a single constant PII column: the first `st`
of `n` rows are scanned, the email finding covers all `st` sampled rows
with ratio 1, and the summary records the sampling. -/
theorem scan_email_replicate (rx : String → Bool) (name v : String) (n st : ℕ)
    (hstn : st < n) (hst : 0 < st) (hrx : rx v = true)
    (hnoisy : PIIDetector.is_noisy v = false)
    (hdate : isIsoDateShaped v = false) :
    PIIDetector.scan [("email", rx)] []
        ⟨[⟨name, List.replicate n (some v), false, false, false, false⟩], n⟩ st
      = ⟨[(name, ⟨true, st, [("email", st)],
           [⟨name, "email", "legacy", "medium", "high", st, 1⟩]⟩)],
         ⟨0, 1, 0, 1, st, true, st⟩⟩ := by
  have hcol := scan_column_email_replicate rx name v st hst hrx hnoisy
  have hskip : skipColumn ⟨name, List.replicate st (some v), false, false,
      false, false⟩ = false := by
    unfold skipColumn
    dsimp only
    rw [dateShapedSkip_replicate v st hst hdate]
    rfl
  have hsc : scanCols [("email", rx)] [] st
      [⟨name, List.replicate st (some v), false, false, false, false⟩]
      = ⟨[(name, ⟨true, st, [("email", st)],
           [⟨name, "email", "legacy", "medium", "high", st, 1⟩]⟩)], st, 0, 1, 0⟩ := by
    simp only [scanCols]
    rw [hskip, if_neg (show ¬ (false = true) from Bool.false_ne_true)]
    rw [hcol]
    rw [if_pos (show (⟨true, st, [("email", st)],
        [⟨name, "email", "legacy", "medium", "high", st, 1⟩]⟩ :
          ColReport).pii_detected = true from rfl)]
    rfl
  simp only [PIIDetector.scan]
  rw [if_pos (show n > st from hstn)]
  rw [List.map_cons, List.map_nil]
  rw [show Column.takeRows st ⟨name, List.replicate n (some v), false, false,
      false, false⟩
      = ⟨name, (List.replicate n (some v)).take st, false, false, false, false⟩
      from rfl]
  rw [List.take_replicate, min_eq_left (Nat.le_of_lt hstn)]
  simp only [scanPrepared]
  rw [hsc]
  rfl

/-- C6: when the row count exceeds the sample threshold, `PIIDetector.scan`
deterministically scans exactly the first `sample_threshold` rows of every
column (`df.iloc[:threshold]`, never a random sample), reports
is_sampled = True and sample_size = threshold, and every reported
finding's match_ratio is computed against the sampled row count; in
particular a column of `n > threshold` identical PII values yields one
finding covering all `threshold` sampled rows with match_ratio = 1. -/
theorem c6_sampling :
    (∀ (legacy : List (String × (String → Bool)))
       (compiled : List (PIIEntity × (String → Bool))) (ds : PIIDataset) (st : ℕ),
       st < ds.nrows →
       PIIDetector.scan legacy compiled ds st
           = scanPrepared legacy compiled (ds.columns.map (Column.takeRows st))
               st true st
         ∧ (PIIDetector.scan legacy compiled ds st).summary.is_sampled = true
         ∧ (PIIDetector.scan legacy compiled ds st).summary.sample_size = st)
    ∧ (∀ (legacy : List (String × (String → Bool)))
       (compiled : List (PIIEntity × (String → Bool))) (ds : PIIDataset)
       (st : ℕ) (nm : String) (rep : ColReport) (f : Finding),
       st < ds.nrows →
       (nm, rep) ∈ (PIIDetector.scan legacy compiled ds st).columns →
       f ∈ rep.pii_findings →
       f.match_ratio = roundTo 4 ((f.matchCount : ℚ) / (st : ℚ)))
    ∧ (∀ (rx : String → Bool) (name v : String) (n st : ℕ),
       st < n → 0 < st → rx v = true → PIIDetector.is_noisy v = false →
       isIsoDateShaped v = false →
       PIIDetector.scan [("email", rx)] []
           ⟨[⟨name, List.replicate n (some v), false, false, false, false⟩], n⟩ st
         = ⟨[(name, ⟨true, st, [("email", st)],
              [⟨name, "email", "legacy", "medium", "high", st, 1⟩]⟩)],
            ⟨0, 1, 0, 1, st, true, st⟩⟩) := by
  refine ⟨?_, ?_, ?_⟩
  · intro legacy compiled ds st h
    have he : PIIDetector.scan legacy compiled ds st
        = scanPrepared legacy compiled (ds.columns.map (Column.takeRows st))
            st true st := by
      unfold PIIDetector.scan
      rw [if_pos (show ds.nrows > st from h)]
    refine ⟨he, ?_, ?_⟩
    · rw [he]
      rfl
    · rw [he]
      rfl
  · intro legacy compiled ds st nm rep f h hmem hf
    unfold PIIDetector.scan at hmem
    rw [if_pos (show ds.nrows > st from h)] at hmem
    exact scanCols_ratio legacy compiled st (ds.columns.map (Column.takeRows st))
      nm rep f hmem hf
  · intro rx name v n st hstn hst hrx hnoisy hdate
    exact scan_email_replicate rx name v n st hstn hst hrx hnoisy hdate

/-- Witness for `c6_sampling`: a 150000-row column of the constant value
"test@example.com" scanned with sample_threshold 50000 — the scan equals
the truncated-column pipeline, the summary records is_sampled and
sample_size 50000, the concrete finding's ratio is its count over 50000,
and the whole output is the documented sampled report. -/
theorem c6_sampling_witness :
    (PIIDetector.scan [("email", fun s => s == "test@example.com")] []
         ⟨[⟨"col", List.replicate 150000 (some "test@example.com"),
            false, false, false, false⟩], 150000⟩ 50000
       = scanPrepared [("email", fun s => s == "test@example.com")] []
           ([⟨"col", List.replicate 150000 (some "test@example.com"),
              false, false, false, false⟩].map (Column.takeRows 50000))
           50000 true 50000)
    ∧ (PIIDetector.scan [("email", fun s => s == "test@example.com")] []
         ⟨[⟨"col", List.replicate 150000 (some "test@example.com"),
            false, false, false, false⟩], 150000⟩ 50000).summary.is_sampled = true
    ∧ (PIIDetector.scan [("email", fun s => s == "test@example.com")] []
         ⟨[⟨"col", List.replicate 150000 (some "test@example.com"),
            false, false, false, false⟩], 150000⟩ 50000).summary.sample_size = 50000
    ∧ (⟨"col", "email", "legacy", "medium", "high", 50000, 1⟩ :
          Finding).match_ratio
        = roundTo 4 (((⟨"col", "email", "legacy", "medium", "high", 50000, 1⟩ :
            Finding).matchCount : ℚ) / ((50000 : ℕ) : ℚ))
    ∧ PIIDetector.scan [("email", fun s => s == "test@example.com")] []
         ⟨[⟨"col", List.replicate 150000 (some "test@example.com"),
            false, false, false, false⟩], 150000⟩ 50000
       = ⟨[("col", ⟨true, 50000, [("email", 50000)],
            [⟨"col", "email", "legacy", "medium", "high", 50000, 1⟩]⟩)],
          ⟨0, 1, 0, 1, 50000, true, 50000⟩⟩ := by
  have h1 := c6_sampling.1 [("email", fun s => s == "test@example.com")] []
    ⟨[⟨"col", List.replicate 150000 (some "test@example.com"),
       false, false, false, false⟩], 150000⟩ 50000 (by decide)
  have hscan := c6_sampling.2.2 (fun s => s == "test@example.com") "col"
    "test@example.com" 150000 50000 (by decide) (by decide) (by decide)
    (by decide) (by decide)
  refine ⟨h1.1, h1.2.1, h1.2.2, ?_, hscan⟩
  exact c6_sampling.2.1 [("email", fun s => s == "test@example.com")] []
    ⟨[⟨"col", List.replicate 150000 (some "test@example.com"),
       false, false, false, false⟩], 150000⟩ 50000 "col"
    ⟨true, 50000, [("email", 50000)],
      [⟨"col", "email", "legacy", "medium", "high", 50000, 1⟩]⟩
    ⟨"col", "email", "legacy", "medium", "high", 50000, 1⟩
    (by decide)
    (by rw [hscan]; exact List.mem_singleton.mpr rfl)
    (List.mem_singleton.mpr rfl)
